import Mathlib

/-!
# WAVE codec (`wave.h`): shallow embedding and verified properties

The C header `wave.h` is embedded as pure Lean functions.

* Machine integers are mathematical integers (`Int`); every place where C narrows or
  may overflow is an explicit two's complement reduction (`toInt32`, `toInt16`).
* A byte is a `Fin 256` (`cint8_t`), a file is the list of its bytes, an open `FILE` is a
  content together with a position indicator.
* `exit(-1)` after a diagnostic is an `Except.error` carrying the name printed in the
  diagnostic; `return wave_file` is `Except.ok`.
* `fread` past the end of the file stores the bytes the file still has and leaves the rest
  of the (zero-initialised) destination as it was; `fseek` to a negative offset fails and
  leaves the position unchanged.
* Whether `malloc` returns a block depends on the memory the process can obtain, which
  the source does not fix: the decoder `wave_open_with` takes the allocator's answers as a
  parameter, and a request above `PTRDIFF_MAX` is refused whatever they are. `wave_open`
  is the decoder run with plentiful memory, where no other request is refused.
* Opening the file is outside the embedding, which starts from the opened stream.
* `wave_free` acts on the object together with a count of the calls of `free` made on its
  payload block, so that a second release of the block would show.
-/

namespace Wave

/-! ## Constants of `wave.h` -/

def BE_RIFF_CHUNK_ID : Int := 0x52494646
def BE_WAVE_CHUNK_ID : Int := 0x57415645
def BE_FMT_CHUNK_ID : Int := 0x666d7420
def BE_DATA_CHUNK_ID : Int := 0x64617461

def LE_RIFF_CHUNK_ID : Int := 0x46464952
def LE_WAVE_CHUNK_ID : Int := 0x45564157
def LE_FMT_CHUNK_ID : Int := 0x20746d66
def LE_DATA_CHUNK_ID : Int := 0x61746164

def BE_LIST_CHUNK_ID : Int := 0x4C495354
def LE_LIST_CHUNK_ID : Int := 0x5453494C

def RIFF_CHUNK_OFFSET : Int := 4
def NORMAL_CHUNK_OFFSET : Int := 8

def PCM_AUDIO_FORMAT : Int := 1

def PCM_FMT_CHUNK_SIZE : Int := 16

/-! ## Machine integers and bytes -/

/-- One byte of a file or of a sample buffer (`typedef char cint8_t`), as its 8-bit pattern. -/
abbrev cint8_t := Fin 256

/-- Value of an integer after conversion to `int32_t` (two's complement, 32 bits). -/
def toInt32 (x : Int) : Int := (x + 2147483648) % 4294967296 - 2147483648

/-- Value of an integer after conversion to `int16_t` (two's complement, 16 bits). -/
def toInt16 (x : Int) : Int := (x + 32768) % 65536 - 32768

/-- Number of values of a `size_t` (64 bits; the source prints `sizeof` results with
`%lli`). -/
def SIZE_RANGE : Nat := 18446744073709551616

/-- Value of an integer after conversion to `size_t`. -/
def toSizeT (x : Int) : Nat := (x % (SIZE_RANGE : Int)).toNat

/-- The low eight bits of a natural number as a byte. -/
def toByte (n : Nat) : cint8_t := ⟨n % 256, Nat.mod_lt n (by decide)⟩

/-- Memory image of an `int32_t`: four bytes, least significant first. -/
def bytes_of_int32 (v : Int) : List cint8_t :=
  let u := (v % 4294967296).toNat
  [toByte u, toByte (u / 256), toByte (u / 65536), toByte (u / 16777216)]

/-- Memory image of an `int16_t`: two bytes, least significant first. -/
def bytes_of_int16 (v : Int) : List cint8_t :=
  let u := (v % 65536).toNat
  [toByte u, toByte (u / 256)]

/-- Byte `i` of a block that was zero-initialised and then overwritten from its start by
`bs`: cells beyond the bytes read keep the value 0. -/
def cell (bs : List cint8_t) (i : Nat) : Nat := (bs.getD i 0).val

/-- The `int32_t` stored at byte offset `off` of such a block. -/
def int32_at (bs : List cint8_t) (off : Nat) : Int :=
  toInt32 (((cell bs off + 256 * cell bs (off + 1) + 65536 * cell bs (off + 2)
    + 16777216 * cell bs (off + 3) : Nat) : Int))

/-- The `int16_t` stored at byte offset `off` of such a block. -/
def int16_at (bs : List cint8_t) (off : Nat) : Int :=
  toInt16 (((cell bs off + 256 * cell bs (off + 1) : Nat) : Int))

/-! ## Chunk model -/

/-- The C enumeration `sample_type_t`; an enumeration object holds an `int`, so values
other than the three enumerators can reach a `switch`. -/
abbrev sample_type_t := Int

def suint8 : sample_type_t := 0
def suint16 : sample_type_t := 1
def sfloat32 : sample_type_t := 2

structure wave_riff_chunk_t where
  chunk_id : Int
  chunk_size : Int
  format : Int
deriving DecidableEq, Repr

structure wave_fmt_chunk_t where
  subchunk_id : Int
  subchunk_size : Int
  audio_format : Int
  num_channels : Int
  sample_rate : Int
  byte_rate : Int
  block_align : Int
  bits_per_sample : Int
deriving DecidableEq, Repr

/-- The data chunk. `data` lists the bytes that `fread` stored into the allocated block,
from its start; cells of the block that no read reached are not listed. -/
structure wave_data_chunk_t where
  subchunk_id : Int
  subchunk_size : Int
  data : List cint8_t
deriving DecidableEq, Repr

structure wave_t where
  riff_chunk : wave_riff_chunk_t
  fmt_chunk : wave_fmt_chunk_t
  data_chunk : wave_data_chunk_t
  is_loaded : Nat
deriving DecidableEq, Repr

/-- `sample_rate * num_channels * (bits_per_sample / 8)` in `int` arithmetic: the division
truncates toward zero and the product is reduced to 32 bits. -/
def wave_calculate_byte_rate (sample_rate num_channels bits_per_sample : Int) : Int :=
  toInt32 (sample_rate * num_channels * (Int.tdiv bits_per_sample 8))

/-- `num_channels * (bits_per_sample / 8)` computed in `int` and returned as `int16_t`. -/
def wave_calculate_block_align (num_channels bits_per_sample : Int) : Int :=
  toInt16 (toInt32 (num_channels * (Int.tdiv bits_per_sample 8)))

def wave_get_bits_per_sample (sample_type : sample_type_t) : Int :=
  if sample_type = suint8 then 8
  else if sample_type = suint16 then 16
  else if sample_type = sfloat32 then 32
  else 8

/-! ## The encoder -/

/-- The bytes `wave_save` writes to the sink it opened with `_wfopen(filepath, L"wb")`
(the embedding starts once the sink is open). `data` is the caller's buffer, which must
hold at least `data_size` bytes; `fwrite(data, data_size, 1, file)` copies its first
`data_size` bytes. -/
def wave_save (data : List cint8_t) (data_size num_channels sample_rate : Int)
    (sample_type : sample_type_t) : List cint8_t :=
  let bits_per_sample := wave_get_bits_per_sample sample_type
  let data_chunk : wave_data_chunk_t :=
    { subchunk_id := LE_DATA_CHUNK_ID
      subchunk_size := data_size
      data := data }
  let fmt_chunk : wave_fmt_chunk_t :=
    { subchunk_id := LE_FMT_CHUNK_ID
      subchunk_size := PCM_FMT_CHUNK_SIZE
      audio_format := PCM_AUDIO_FORMAT
      num_channels := num_channels
      sample_rate := sample_rate
      byte_rate := wave_calculate_byte_rate sample_rate num_channels bits_per_sample
      block_align := wave_calculate_block_align num_channels bits_per_sample
      bits_per_sample := bits_per_sample }
  let riff_chunk : wave_riff_chunk_t :=
    { chunk_id := LE_RIFF_CHUNK_ID
      chunk_size := toInt32 (RIFF_CHUNK_OFFSET + (NORMAL_CHUNK_OFFSET + PCM_FMT_CHUNK_SIZE)
        + (NORMAL_CHUNK_OFFSET + data_size))
      format := LE_WAVE_CHUNK_ID }
  (bytes_of_int32 riff_chunk.chunk_id ++ bytes_of_int32 riff_chunk.chunk_size
      ++ bytes_of_int32 riff_chunk.format)
    ++ bytes_of_int32 fmt_chunk.subchunk_id
    ++ bytes_of_int32 fmt_chunk.subchunk_size
    ++ bytes_of_int16 fmt_chunk.audio_format
    ++ bytes_of_int16 fmt_chunk.num_channels
    ++ bytes_of_int32 fmt_chunk.sample_rate
    ++ bytes_of_int32 fmt_chunk.byte_rate
    ++ bytes_of_int16 fmt_chunk.block_align
    ++ bytes_of_int16 fmt_chunk.bits_per_sample
    ++ bytes_of_int32 data_chunk.subchunk_id
    ++ bytes_of_int32 data_chunk.subchunk_size
    ++ data_chunk.data.take (toSizeT data_size)

/-! ## The decoder -/

/-- An open binary input stream: the bytes of the file and the position indicator. -/
structure FILE where
  content : List cint8_t
  pos : Nat
deriving DecidableEq, Repr

/-- Outcome of `fread(ptr, size, 1, file)`: the bytes stored at the start of `*ptr` (all
`size` of them, or as many as the file still has) and the stream advanced past them. -/
def fread (size : Nat) (file : FILE) : List cint8_t × FILE :=
  let bs := (file.content.drop file.pos).take size
  (bs, { file with pos := file.pos + bs.length })

def ftell (file : FILE) : Int := file.pos

/-- Outcome of `fseek(file, offset, SEEK_CUR)`: a target before the start of the file
is refused and leaves the position where it was; a target past the end is accepted. -/
def fseek_cur (file : FILE) (offset : Int) : FILE :=
  if 0 ≤ (file.pos : Int) + offset then { file with pos := ((file.pos : Int) + offset).toNat }
  else file

/-- Outcome of `fseek(file, offset, SEEK_SET)`. -/
def fseek_set (file : FILE) (offset : Int) : FILE :=
  if 0 ≤ offset then { file with pos := offset.toNat } else file

/-- The length of the file as `ftell` reports it at the end of the file, converted to the
`int32_t` it is stored in (a length above 2^31 - 1 is reduced to 32 bits), and the stream
rewound. -/
def get_file_size (file : FILE) : Int × FILE :=
  (toInt32 file.content.length, { file with pos := 0 })

def sizeof_wave_riff_chunk_t : Int := 12
def sizeof_wave_fmt_chunk_t : Int := 24
/-- The value of `sizeof(data_chunk.data)`, the size of a pointer. -/
def sizeof_pointer : Nat := 8

def PTRDIFF_MAX : Nat := 9223372036854775807

/-- Whether `malloc(size)` returns a block. A request above `PTRDIFF_MAX` is refused by
every allocator. Whether a request within it is served depends on the memory the process
can obtain when the call is made, which the source does not fix: `serves` holds the
allocator's answer for each request size. -/
def malloc (serves : Nat → Bool) (size : Nat) : Bool :=
  decide (size ≤ PTRDIFF_MAX) && serves size

/-- The allocator of a process with plentiful memory: it serves every request. -/
def plentiful : Nat → Bool := fun _ => true

/-- The diagnostics after which `wave_open` calls `exit(-1)`. -/
inductive wave_error where
  | RIFF_CHUNK_ID
  | RIFF_CHUNK_SIZE
  | WAVE_CHUNK_ID
  | FMT_SUBCHUNK_ID
  | AUDIO_FORMAT
  | BYTE_RATE
  | BLOCK_ALIGN
  | DATA_SUBCHUNK_ID
  | DATA_SUBCHUNK_SIZE
  | MALLOC
deriving DecidableEq, Repr

instance : DecidableEq (Except wave_error wave_t)
  | .ok a, .ok b =>
    if h : a = b then isTrue (congrArg Except.ok h)
    else isFalse (fun h2 => h (Except.ok.inj h2))
  | .error a, .error b =>
    if h : a = b then isTrue (congrArg Except.error h)
    else isFalse (fun h2 => h (Except.error.inj h2))
  | .ok _, .error _ => isFalse (fun h => Except.noConfusion h)
  | .error _, .ok _ => isFalse (fun h => Except.noConfusion h)

/-- Lines 242-272 of `wave_open`, the statements after the `switch`: the data subchunk is
read from the stream as the `switch` left it, checked against the running
`calculated_chunk_size`, and the object is assembled from it and from the two chunks read
before. `serves` holds the answers of the allocator. -/
def wave_open_data_chunk_with (serves : Nat → Bool) (riff_chunk : wave_riff_chunk_t)
    (fmt_chunk : wave_fmt_chunk_t) (calculated_chunk_size : Int) (file : FILE) :
    Except wave_error wave_t :=
  let r := fread 4 file
  let data_subchunk_id := int32_at r.1 0
  let file := r.2
  if data_subchunk_id ≠ LE_DATA_CHUNK_ID then .error .DATA_SUBCHUNK_ID
  else
  let r := fread 4 file
  let data_subchunk_size := int32_at r.1 0
  let file := r.2
  let calculated_data_subchunk_size :=
    toInt32 (calculated_chunk_size - sizeof_wave_fmt_chunk_t - sizeof_wave_riff_chunk_t)
  if data_subchunk_size > calculated_data_subchunk_size then .error .DATA_SUBCHUNK_SIZE
  else if malloc serves ((sizeof_pointer * toSizeT data_subchunk_size) % SIZE_RANGE) = false
  then .error .MALLOC
  else
  let r := fread (toSizeT data_subchunk_size) file
  .ok
    { riff_chunk := riff_chunk
      fmt_chunk := fmt_chunk
      data_chunk :=
        { subchunk_id := data_subchunk_id
          subchunk_size := data_subchunk_size
          data := r.1 }
      is_loaded := 1 }

/-- The decoder, run on the content of the file it opened with `_wfopen(filepath, L"rb")`
(the embedding starts once the source is open), in a process whose allocator answers as
`serves` tells. Lines 173-240 are spelled out here, lines 242-272 are
`wave_open_data_chunk_with`. -/
def wave_open_with (serves : Nat → Bool) (content : List cint8_t) : Except wave_error wave_t :=
  let file : FILE := { content := content, pos := 0 }
  let sz := get_file_size file
  let calculated_chunk_size := toInt32 (sz.1 - NORMAL_CHUNK_OFFSET)
  let file := sz.2
  let r := fread 12 file
  let riff_chunk : wave_riff_chunk_t :=
    { chunk_id := int32_at r.1 0
      chunk_size := int32_at r.1 4
      format := int32_at r.1 8 }
  let file := r.2
  if riff_chunk.chunk_id ≠ LE_RIFF_CHUNK_ID then .error .RIFF_CHUNK_ID
  else if riff_chunk.chunk_size ≠ calculated_chunk_size then .error .RIFF_CHUNK_SIZE
  else if riff_chunk.format ≠ LE_WAVE_CHUNK_ID then .error .WAVE_CHUNK_ID
  else
  let r := fread 24 file
  let fmt_chunk : wave_fmt_chunk_t :=
    { subchunk_id := int32_at r.1 0
      subchunk_size := int32_at r.1 4
      audio_format := int16_at r.1 8
      num_channels := int16_at r.1 10
      sample_rate := int32_at r.1 12
      byte_rate := int32_at r.1 16
      block_align := int16_at r.1 20
      bits_per_sample := int16_at r.1 22 }
  let file := r.2
  if fmt_chunk.subchunk_id ≠ LE_FMT_CHUNK_ID then .error .FMT_SUBCHUNK_ID
  else if fmt_chunk.audio_format ≠ PCM_AUDIO_FORMAT then .error .AUDIO_FORMAT
  else
  let calculated_byte_rate :=
    wave_calculate_byte_rate fmt_chunk.sample_rate fmt_chunk.num_channels fmt_chunk.bits_per_sample
  if fmt_chunk.byte_rate ≠ calculated_byte_rate then .error .BYTE_RATE
  else
  let calculated_block_align :=
    wave_calculate_block_align fmt_chunk.num_channels fmt_chunk.bits_per_sample
  if fmt_chunk.block_align ≠ calculated_block_align then .error .BLOCK_ALIGN
  else
  let r := fread 4 file
  let chunk_id := int32_at r.1 0
  let file := r.2
  -- the `switch`; each case continues with the statements that follow it
  if chunk_id = LE_LIST_CHUNK_ID then
    let r := fread 4 file
    let list_subchunk_size := int32_at r.1 0
    let file := r.2
    let calculated_chunk_size :=
      toInt32 (calculated_chunk_size - toInt32 (list_subchunk_size + NORMAL_CHUNK_OFFSET))
    let file := fseek_cur file list_subchunk_size
    wave_open_data_chunk_with serves riff_chunk fmt_chunk calculated_chunk_size file
  else if chunk_id = LE_DATA_CHUNK_ID then
    let current_file_pointer_position := toInt32 (ftell file)
    let file := fseek_set file (current_file_pointer_position - 4)
    wave_open_data_chunk_with serves riff_chunk fmt_chunk calculated_chunk_size file
  else
    wave_open_data_chunk_with serves riff_chunk fmt_chunk calculated_chunk_size file

/-- The decoder in a process with plentiful memory: `malloc` refuses only a request above
`PTRDIFF_MAX`. -/
def wave_open (content : List cint8_t) : Except wave_error wave_t :=
  wave_open_with plentiful content

/-! ## The decoder by file offsets

The same computation with every read written at its offset in the file; `wave_open_eq_at`
proves the two equal. The theorems below reason on this form. -/

def riff_at (F : List cint8_t) : wave_riff_chunk_t :=
  { chunk_id := int32_at F 0
    chunk_size := int32_at F 4
    format := int32_at F 8 }

def fmt_at (F : List cint8_t) : wave_fmt_chunk_t :=
  { subchunk_id := int32_at F 12
    subchunk_size := int32_at F 16
    audio_format := int16_at F 20
    num_channels := int16_at F 22
    sample_rate := int32_at F 24
    byte_rate := int32_at F 28
    block_align := int16_at F 32
    bits_per_sample := int16_at F 34 }

/-- The data subchunk read when the stream stands at offset `p`. -/
def data_chunk_at (F : List cint8_t) (riff_chunk : wave_riff_chunk_t)
    (fmt_chunk : wave_fmt_chunk_t) (calculated_chunk_size : Int) (p : Nat) :
    Except wave_error wave_t :=
  if int32_at F p ≠ LE_DATA_CHUNK_ID then .error .DATA_SUBCHUNK_ID
  else if int32_at F (p + 4) > toInt32 (calculated_chunk_size - 24 - 12) then
    .error .DATA_SUBCHUNK_SIZE
  else if malloc plentiful ((8 * toSizeT (int32_at F (p + 4))) % SIZE_RANGE) = false then
    .error .MALLOC
  else
    .ok
      { riff_chunk := riff_chunk
        fmt_chunk := fmt_chunk
        data_chunk :=
          { subchunk_id := int32_at F p
            subchunk_size := int32_at F (p + 4)
            data := (F.drop (p + 8)).take (toSizeT (int32_at F (p + 4))) }
        is_loaded := 1 }

/-- Offset at which the data subchunk is looked for after a `LIST` chunk whose size field
holds `n`: the size field ends at offset 44 (or at the end of a shorter file) and `fseek`
moves on by `n` unless that would lead before the start of the file. -/
def list_end (F : List cint8_t) (n : Int) : Nat :=
  if 0 ≤ ((min 44 F.length : Nat) : Int) + n then (((min 44 F.length : Nat) : Int) + n).toNat
  else min 44 F.length

/-- The chunk tag at offset 36, its `switch`, and the data subchunk after it. -/
def chunks_at (F : List cint8_t) : Except wave_error wave_t :=
  if int32_at F 36 = LE_LIST_CHUNK_ID then
    data_chunk_at F (riff_at F) (fmt_at F)
      (toInt32 (toInt32 (toInt32 F.length - 8) - toInt32 (int32_at F 40 + 8)))
      (list_end F (int32_at F 40))
  else if int32_at F 36 = LE_DATA_CHUNK_ID then
    data_chunk_at F (riff_at F) (fmt_at F) (toInt32 (toInt32 F.length - 8)) 36
  else
    data_chunk_at F (riff_at F) (fmt_at F) (toInt32 (toInt32 F.length - 8)) 40

def wave_open_at (F : List cint8_t) : Except wave_error wave_t :=
  if int32_at F 0 ≠ LE_RIFF_CHUNK_ID then .error .RIFF_CHUNK_ID
  else if int32_at F 4 ≠ toInt32 (toInt32 F.length - 8) then .error .RIFF_CHUNK_SIZE
  else if int32_at F 8 ≠ LE_WAVE_CHUNK_ID then .error .WAVE_CHUNK_ID
  else if int32_at F 12 ≠ LE_FMT_CHUNK_ID then .error .FMT_SUBCHUNK_ID
  else if int16_at F 20 ≠ PCM_AUDIO_FORMAT then .error .AUDIO_FORMAT
  else if int32_at F 28
      ≠ wave_calculate_byte_rate (int32_at F 24) (int16_at F 22) (int16_at F 34) then
    .error .BYTE_RATE
  else if int16_at F 32 ≠ wave_calculate_block_align (int16_at F 22) (int16_at F 34) then
    .error .BLOCK_ALIGN
  else chunks_at F

/-! ## Release -/

/-- The part of the program state `wave_free` reads and writes: the object `*wave` and, for
the block its `data` member points to, the number of calls of `free` made on that block so
far. -/
structure wave_memory where
  wave : wave_t
  free_calls : Nat
deriving DecidableEq, Repr

/-- The call `free(wave->data_chunk.data)`: one more release of the payload block. The
pointer member itself is not assigned. -/
def free (m : wave_memory) : wave_memory := { m with free_calls := m.free_calls + 1 }

def wave_free (m : wave_memory) : wave_memory :=
  if m.wave.is_loaded ≠ 0 then
    let m := free m
    { m with wave := { m.wave with is_loaded := 0 } }
  else m

/-! ## Reference encodings used to state the file layout -/

/-- The four bytes of a chunk tag, from its four ASCII characters in file order. -/
def tag_bytes (name : String) : List cint8_t :=
  name.toList.map (fun c => toByte c.toNat)

/-- Little-endian digits: the `width` least significant base-256 digits of `v`, least
significant first. -/
def le_digits : Nat → Nat → List cint8_t
  | 0, _ => []
  | width + 1, v => toByte (v % 256) :: le_digits width (v / 256)

/-- The 32-bit little-endian field holding the (two's complement) value `v`. -/
def le_field32 (v : Int) : List cint8_t := le_digits 4 (v % 4294967296).toNat

/-- The 16-bit little-endian field holding the (two's complement) value `v`. -/
def le_field16 (v : Int) : List cint8_t := le_digits 2 (v % 65536).toNat

end Wave

namespace Wave

/-! ## Reading bytes and fields -/

theorem cell_lt (bs : List cint8_t) (i : Nat) : cell bs i < 256 := (bs.getD i 0).isLt

theorem cell_of_le {bs : List cint8_t} {i : Nat} (h : bs.length ≤ i) : cell bs i = 0 := by
  unfold cell
  rw [List.getD_eq_getElem?_getD, List.getElem?_eq_none h]
  rfl

theorem lt_of_cell_ne_zero {bs : List cint8_t} {i : Nat} (h : cell bs i ≠ 0) :
    i < bs.length := by
  by_contra hc
  exact h (cell_of_le (Nat.le_of_not_lt hc))

theorem cell_take_drop (F : List cint8_t) (p n i : Nat) :
    cell ((F.drop p).take n) i = if i < n then cell F (p + i) else 0 := by
  unfold cell
  simp only [List.getD_eq_getElem?_getD, List.getElem?_take, List.getElem?_drop]
  split_ifs <;> rfl

theorem int32_at_take_drop (F : List cint8_t) (p n off : Nat) (h : off + 4 ≤ n) :
    int32_at ((F.drop p).take n) off = int32_at F (p + off) := by
  unfold int32_at
  simp only [cell_take_drop]
  rw [if_pos (by omega), if_pos (by omega), if_pos (by omega), if_pos (by omega)]
  simp only [Nat.add_assoc]

theorem int16_at_take_drop (F : List cint8_t) (p n off : Nat) (h : off + 2 ≤ n) :
    int16_at ((F.drop p).take n) off = int16_at F (p + off) := by
  unfold int16_at
  simp only [cell_take_drop]
  rw [if_pos (by omega), if_pos (by omega)]
  simp only [Nat.add_assoc]

theorem fread_fst (n : Nat) (f : FILE) : (fread n f).1 = (f.content.drop f.pos).take n := by
  simp [fread]

theorem fread_snd (n : Nat) (f : FILE) :
    (fread n f).2 = { content := f.content, pos := f.pos + min n (f.content.length - f.pos) } := by
  simp [fread, List.length_take, List.length_drop]

/-- A field that starts at or after the end of the file reads as 0. -/
theorem int32_at_of_le {F : List cint8_t} {p : Nat} (h : F.length ≤ p) : int32_at F p = 0 := by
  unfold int32_at
  rw [cell_of_le h, cell_of_le (by omega : F.length ≤ p + 1),
    cell_of_le (by omega : F.length ≤ p + 2), cell_of_le (by omega : F.length ≤ p + 3)]
  decide

theorem int32_at_min (F : List cint8_t) (k : Nat) :
    int32_at F (min k F.length) = int32_at F k := by
  by_cases h : k ≤ F.length
  · rw [Nat.min_eq_left h]
  · have h2 : F.length ≤ k := by omega
    rw [Nat.min_eq_right h2, int32_at_of_le (Nat.le_refl _), int32_at_of_le h2]

/-- A field whose most significant byte is not 0 lies wholly inside the file. -/
theorem int32_at_in_bounds {F : List cint8_t} {p : Nat} {t : Int} (h : int32_at F p = t)
    (ht : 16777216 ≤ t ∨ t < 0) : p + 4 ≤ F.length := by
  by_contra hc
  have h3 : cell F (p + 3) = 0 := cell_of_le (by omega)
  have b0 := cell_lt F p
  have b1 := cell_lt F (p + 1)
  have b2 := cell_lt F (p + 2)
  unfold int32_at toInt32 at h
  rw [h3] at h
  omega

theorem drop_add_min (F : List cint8_t) (q n : Nat) :
    List.drop (q + min n (F.length - q)) F = List.drop (q + n) F := by
  by_cases h : q + n ≤ F.length
  · have e : q + min n (F.length - q) = q + n := by omega
    rw [e]
  · rw [List.drop_eq_nil_of_le (by omega), List.drop_eq_nil_of_le (by omega)]

theorem wave_open_data_chunk_eq (F : List cint8_t) (riff_chunk : wave_riff_chunk_t)
    (fmt_chunk : wave_fmt_chunk_t) (ccs : Int) (p : Nat) :
    wave_open_data_chunk_with plentiful riff_chunk fmt_chunk ccs { content := F, pos := p }
      = data_chunk_at F riff_chunk fmt_chunk ccs p := by
  unfold wave_open_data_chunk_with data_chunk_at
  simp only [fread_fst, fread_snd, int32_at_take_drop, Nat.le_refl, Nat.add_zero, Nat.zero_add,
    sizeof_wave_fmt_chunk_t, sizeof_wave_riff_chunk_t, sizeof_pointer]
  by_cases h : int32_at F p = LE_DATA_CHUNK_ID
  · have hb : p + 4 ≤ F.length :=
      int32_at_in_bounds h (by unfold LE_DATA_CHUNK_ID; omega)
    have e1 : p + min 4 (F.length - p) = p + 4 := by omega
    rw [e1, drop_add_min]
  · rw [if_pos h, if_pos h]


theorem int16_at_of_le {F : List cint8_t} {p : Nat} (h : F.length ≤ p) : int16_at F p = 0 := by
  unfold int16_at
  rw [cell_of_le h, cell_of_le (by omega : F.length ≤ p + 1)]
  decide

theorem int32_at_min_add (F : List cint8_t) (a k : Nat) :
    int32_at F (min a F.length + k) = int32_at F (a + k) := by
  by_cases h : a ≤ F.length
  · rw [Nat.min_eq_left h]
  · rw [Nat.min_eq_right (by omega), int32_at_of_le (by omega), int32_at_of_le (by omega)]

theorem int16_at_min_add (F : List cint8_t) (a k : Nat) :
    int16_at F (min a F.length + k) = int16_at F (a + k) := by
  by_cases h : a ≤ F.length
  · rw [Nat.min_eq_left h]
  · rw [Nat.min_eq_right (by omega), int16_at_of_le (by omega), int16_at_of_le (by omega)]

theorem int32_at_fread (F : List cint8_t) (a n k : Nat) (h : k + 4 ≤ n) :
    int32_at (fread n { content := F, pos := min a F.length }).1 k = int32_at F (a + k) := by
  rw [fread_fst, int32_at_take_drop F _ n k h, int32_at_min_add]

theorem int16_at_fread (F : List cint8_t) (a n k : Nat) (h : k + 2 ≤ n) :
    int16_at (fread n { content := F, pos := min a F.length }).1 k = int16_at F (a + k) := by
  rw [fread_fst, int16_at_take_drop F _ n k h, int16_at_min_add]

theorem fread_snd_min (F : List cint8_t) (a n : Nat) :
    (fread n { content := F, pos := min a F.length }).2
      = { content := F, pos := min (a + n) F.length } := by
  rw [fread_snd]
  have e : min a F.length + min n (F.length - min a F.length) = min (a + n) F.length := by omega
  simp only [e]

theorem data_chunk_at_min (F : List cint8_t) (riff_chunk : wave_riff_chunk_t)
    (fmt_chunk : wave_fmt_chunk_t) (ccs : Int) (a : Nat) :
    data_chunk_at F riff_chunk fmt_chunk ccs (min a F.length)
      = data_chunk_at F riff_chunk fmt_chunk ccs a := by
  by_cases h : a ≤ F.length
  · rw [Nat.min_eq_left h]
  · have h0 : int32_at F (min a F.length) = 0 := by
      rw [int32_at_min]; exact int32_at_of_le (by omega)
    have h1 : int32_at F a = 0 := int32_at_of_le (by omega)
    have hn : (0 : Int) ≠ LE_DATA_CHUNK_ID := by decide
    unfold data_chunk_at
    rw [h0, h1, if_pos hn, if_pos hn]

theorem wave_open_eq_at (F : List cint8_t) : wave_open F = wave_open_at F := by
  have z : ({ content := F, pos := 0 } : FILE) = { content := F, pos := min 0 F.length } := by
    simp
  unfold wave_open wave_open_with
  simp only []
  have hg : (get_file_size { content := F, pos := 0 }).2 = { content := F, pos := 0 } := rfl
  have hg1 : (get_file_size { content := F, pos := 0 }).1 = toInt32 F.length := rfl
  rw [hg, hg1, z]
  simp only [fread_snd_min, int32_at_fread, int16_at_fread, Nat.reduceAdd, Nat.reduceLeDiff,
    Nat.le_refl]
  rw [show (NORMAL_CHUNK_OFFSET : Int) = 8 from rfl]
  have hl : fseek_cur { content := F, pos := min 44 F.length } (int32_at F 40)
      = { content := F, pos := list_end F (int32_at F 40) } := by
    unfold fseek_cur list_end
    split_ifs <;> rfl
  have hd : int32_at F 36 = LE_DATA_CHUNK_ID →
      fseek_set { content := F, pos := min 40 F.length }
        (toInt32 (ftell { content := F, pos := min 40 F.length }) - 4)
        = { content := F, pos := 36 } := by
    intro h
    have hb : 36 + 4 ≤ F.length := int32_at_in_bounds h (by unfold LE_DATA_CHUNK_ID; omega)
    have e : min 40 F.length = 40 := by omega
    have e2 : toInt32 (((40 : Nat) : Int)) - 4 = ((36 : Nat) : Int) := by
      unfold toInt32; omega
    rw [e]
    unfold fseek_set ftell
    rw [e2, if_pos (Int.ofNat_nonneg 36), Int.toNat_ofNat]
  rw [hl]
  simp only [wave_open_data_chunk_eq, data_chunk_at_min]
  unfold wave_open_at chunks_at riff_at fmt_at
  by_cases c : int32_at F 36 = LE_DATA_CHUNK_ID
  · rw [hd c, wave_open_data_chunk_eq]
  · rw [if_neg c, if_neg c]

/-! ## What a successful decode implies -/

theorem toInt32_range (x : Int) : -2147483648 ≤ toInt32 x ∧ toInt32 x < 2147483648 := by
  unfold toInt32; omega

theorem toInt32_of_range {x : Int} (h1 : -2147483648 ≤ x) (h2 : x < 2147483648) :
    toInt32 x = x := by
  unfold toInt32; omega

theorem int32_at_range (F : List cint8_t) (p : Nat) :
    -2147483648 ≤ int32_at F p ∧ int32_at F p < 2147483648 := toInt32_range _

/-- An allocation of `sizeof(pointer) * d` bytes for an `int32_t` count `d` succeeds
exactly when `d` is not negative. -/
theorem malloc_iff {d : Int} (h1 : -2147483648 ≤ d) (h2 : d < 2147483648) :
    malloc plentiful ((8 * toSizeT d) % SIZE_RANGE) = true ↔ 0 ≤ d := by
  unfold malloc plentiful toSizeT SIZE_RANGE PTRDIFF_MAX
  rw [Bool.and_true, decide_eq_true_iff]
  constructor
  · intro h
    by_contra hc
    have e : (d % ((18446744073709551616 : Nat) : Int)).toNat = (d + 18446744073709551616).toNat := by
      congr 1
      omega
    rw [e] at h
    omega
  · intro h
    have e : (d % ((18446744073709551616 : Nat) : Int)).toNat = d.toNat := by
      congr 1
      omega
    rw [e]
    omega

theorem toSizeT_of_nonneg {d : Int} (h1 : 0 ≤ d) (h2 : d < 2147483648) :
    toSizeT d = d.toNat := by
  unfold toSizeT SIZE_RANGE
  congr 1
  omega

theorem wave_open_at_ok {F : List cint8_t} {w : wave_t} (h : wave_open_at F = .ok w) :
    int32_at F 0 = LE_RIFF_CHUNK_ID
      ∧ int32_at F 4 = toInt32 (toInt32 F.length - 8)
      ∧ int32_at F 8 = LE_WAVE_CHUNK_ID
      ∧ int32_at F 12 = LE_FMT_CHUNK_ID
      ∧ int16_at F 20 = PCM_AUDIO_FORMAT
      ∧ int32_at F 28 = wave_calculate_byte_rate (int32_at F 24) (int16_at F 22) (int16_at F 34)
      ∧ int16_at F 32 = wave_calculate_block_align (int16_at F 22) (int16_at F 34)
      ∧ chunks_at F = .ok w := by
  unfold wave_open_at at h
  by_cases c1 : int32_at F 0 = LE_RIFF_CHUNK_ID
  swap
  · rw [if_pos c1] at h; exact Except.noConfusion h
  rw [if_neg (not_not.mpr c1)] at h
  by_cases c2 : int32_at F 4 = toInt32 (toInt32 F.length - 8)
  swap
  · rw [if_pos c2] at h; exact Except.noConfusion h
  rw [if_neg (not_not.mpr c2)] at h
  by_cases c3 : int32_at F 8 = LE_WAVE_CHUNK_ID
  swap
  · rw [if_pos c3] at h; exact Except.noConfusion h
  rw [if_neg (not_not.mpr c3)] at h
  by_cases c4 : int32_at F 12 = LE_FMT_CHUNK_ID
  swap
  · rw [if_pos c4] at h; exact Except.noConfusion h
  rw [if_neg (not_not.mpr c4)] at h
  by_cases c5 : int16_at F 20 = PCM_AUDIO_FORMAT
  swap
  · rw [if_pos c5] at h; exact Except.noConfusion h
  rw [if_neg (not_not.mpr c5)] at h
  by_cases c6 : int32_at F 28
      = wave_calculate_byte_rate (int32_at F 24) (int16_at F 22) (int16_at F 34)
  swap
  · rw [if_pos c6] at h; exact Except.noConfusion h
  rw [if_neg (not_not.mpr c6)] at h
  by_cases c7 : int16_at F 32 = wave_calculate_block_align (int16_at F 22) (int16_at F 34)
  swap
  · rw [if_pos c7] at h; exact Except.noConfusion h
  rw [if_neg (not_not.mpr c7)] at h
  exact ⟨c1, c2, c3, c4, c5, c6, c7, h⟩

/-- The converse: a file that passes the seven header checks is decoded by `chunks_at`. -/
theorem wave_open_at_of_header {F : List cint8_t}
    (c1 : int32_at F 0 = LE_RIFF_CHUNK_ID)
    (c2 : int32_at F 4 = toInt32 (toInt32 F.length - 8))
    (c3 : int32_at F 8 = LE_WAVE_CHUNK_ID)
    (c4 : int32_at F 12 = LE_FMT_CHUNK_ID)
    (c5 : int16_at F 20 = PCM_AUDIO_FORMAT)
    (c6 : int32_at F 28
      = wave_calculate_byte_rate (int32_at F 24) (int16_at F 22) (int16_at F 34))
    (c7 : int16_at F 32 = wave_calculate_block_align (int16_at F 22) (int16_at F 34)) :
    wave_open_at F = chunks_at F := by
  unfold wave_open_at
  rw [if_neg (not_not.mpr c1), if_neg (not_not.mpr c2), if_neg (not_not.mpr c3),
    if_neg (not_not.mpr c4), if_neg (not_not.mpr c5), if_neg (not_not.mpr c6),
    if_neg (not_not.mpr c7)]

theorem data_chunk_at_ok {F : List cint8_t} {r : wave_riff_chunk_t} {f : wave_fmt_chunk_t}
    {ccs : Int} {p : Nat} {w : wave_t} (h : data_chunk_at F r f ccs p = .ok w) :
    int32_at F p = LE_DATA_CHUNK_ID
      ∧ int32_at F (p + 4) ≤ toInt32 (ccs - 24 - 12)
      ∧ 0 ≤ int32_at F (p + 4)
      ∧ w = { riff_chunk := r
              fmt_chunk := f
              data_chunk :=
                { subchunk_id := int32_at F p
                  subchunk_size := int32_at F (p + 4)
                  data := (F.drop (p + 8)).take (int32_at F (p + 4)).toNat }
              is_loaded := 1 } := by
  unfold data_chunk_at at h
  by_cases c1 : int32_at F p = LE_DATA_CHUNK_ID
  swap
  · rw [if_pos c1] at h; exact Except.noConfusion h
  rw [if_neg (not_not.mpr c1)] at h
  by_cases c2 : int32_at F (p + 4) > toInt32 (ccs - 24 - 12)
  · rw [if_pos c2] at h; exact Except.noConfusion h
  rw [if_neg c2] at h
  by_cases c3 : malloc plentiful ((8 * toSizeT (int32_at F (p + 4))) % SIZE_RANGE) = false
  · rw [if_pos c3] at h; exact Except.noConfusion h
  rw [if_neg c3] at h
  have hr := int32_at_range F (p + 4)
  have hm : 0 ≤ int32_at F (p + 4) :=
    (malloc_iff hr.1 hr.2).1 (by simpa using c3)
  rw [toSizeT_of_nonneg hm hr.2] at h
  refine ⟨c1, by omega, hm, ?_⟩
  exact (Except.ok.inj h).symm

theorem data_chunk_at_of {F : List cint8_t} (r : wave_riff_chunk_t) (f : wave_fmt_chunk_t)
    {ccs : Int} {p : Nat} (c1 : int32_at F p = LE_DATA_CHUNK_ID)
    (c2 : int32_at F (p + 4) ≤ toInt32 (ccs - 24 - 12)) (c3 : 0 ≤ int32_at F (p + 4)) :
    data_chunk_at F r f ccs p
      = .ok { riff_chunk := r
              fmt_chunk := f
              data_chunk :=
                { subchunk_id := int32_at F p
                  subchunk_size := int32_at F (p + 4)
                  data := (F.drop (p + 8)).take (int32_at F (p + 4)).toNat }
              is_loaded := 1 } := by
  have hr := int32_at_range F (p + 4)
  have hm : ¬ malloc plentiful ((8 * toSizeT (int32_at F (p + 4))) % SIZE_RANGE) = false := by
    rw [(malloc_iff hr.1 hr.2).2 c3]; decide
  unfold data_chunk_at
  rw [if_neg (not_not.mpr c1), if_neg (by omega), if_neg hm, toSizeT_of_nonneg c3 hr.2]

theorem chunks_at_ok {F : List cint8_t} {w : wave_t} (h : chunks_at F = .ok w) :
    ∃ ccs p, data_chunk_at F (riff_at F) (fmt_at F) ccs p = .ok w := by
  unfold chunks_at at h
  by_cases c1 : int32_at F 36 = LE_LIST_CHUNK_ID
  · rw [if_pos c1] at h; exact ⟨_, _, h⟩
  rw [if_neg c1] at h
  by_cases c2 : int32_at F 36 = LE_DATA_CHUNK_ID
  · rw [if_pos c2] at h; exact ⟨_, _, h⟩
  rw [if_neg c2] at h
  exact ⟨_, _, h⟩

/-- The running chunk size of a file whose length fits an `int32_t`. -/
theorem calculated_chunk_size_eq (L : Nat) (hL : L ≤ 2147483647) :
    toInt32 (toInt32 (L : Int) - 8) = (L : Int) - 8 := by
  unfold toInt32; omega

/-! ## Decoder soundness (C4) -/

/-- The four structural tags and the skippable tag: each `LE_..._CHUNK_ID` constant is
stored in a file as the four ASCII characters of its name. -/
theorem tag_constants :
    bytes_of_int32 LE_RIFF_CHUNK_ID = tag_bytes "RIFF"
      ∧ bytes_of_int32 LE_WAVE_CHUNK_ID = tag_bytes "WAVE"
      ∧ bytes_of_int32 LE_FMT_CHUNK_ID = tag_bytes "fmt "
      ∧ bytes_of_int32 LE_DATA_CHUNK_ID = tag_bytes "data"
      ∧ bytes_of_int32 LE_LIST_CHUNK_ID = tag_bytes "LIST" := by
  decide

/-- C4 (amended): whenever `wave_open` returns an object for a stream of length `L`, that
object has `is_loaded = 1`, the tags `RIFF`, `WAVE`, `fmt ` and `data`, `audio_format = 1`,
and stored byte rate and block align equal to the values recomputed from the stored sample
rate, channel count and bits per sample; and `chunk_size = L - 8` when `L ≤ 2^31 - 1`, the
range of the `int32_t` in which `get_file_size` holds the length. -/
theorem wave_open_sound (F : List cint8_t) (w : wave_t) (h : wave_open F = .ok w) :
    w.is_loaded = 1
      ∧ w.riff_chunk.chunk_id = LE_RIFF_CHUNK_ID
      ∧ w.riff_chunk.format = LE_WAVE_CHUNK_ID
      ∧ (F.length ≤ 2147483647 → w.riff_chunk.chunk_size = (F.length : Int) - 8)
      ∧ w.fmt_chunk.subchunk_id = LE_FMT_CHUNK_ID
      ∧ w.fmt_chunk.audio_format = 1
      ∧ w.data_chunk.subchunk_id = LE_DATA_CHUNK_ID
      ∧ w.fmt_chunk.byte_rate
          = wave_calculate_byte_rate w.fmt_chunk.sample_rate w.fmt_chunk.num_channels
              w.fmt_chunk.bits_per_sample
      ∧ w.fmt_chunk.block_align
          = wave_calculate_block_align w.fmt_chunk.num_channels w.fmt_chunk.bits_per_sample := by
  rw [wave_open_eq_at] at h
  obtain ⟨c1, c2, c3, c4, c5, c6, c7, hc⟩ := wave_open_at_ok h
  obtain ⟨ccs, p, hd⟩ := chunks_at_ok hc
  obtain ⟨d1, -, -, hw⟩ := data_chunk_at_ok hd
  subst hw
  refine ⟨rfl, ?_, ?_, ?_, ?_, ?_, ?_, ?_, ?_⟩
  · exact c1
  · exact c3
  · intro hL
    rw [calculated_chunk_size_eq F.length hL] at c2
    exact c2
  · exact c4
  · exact c5
  · exact d1
  · exact c6
  · exact c7

theorem wave_open_sound_witness :
    (40 : Int) = ((wave_save [0, 1, 2, 3] 4 1 44100 suint16).length : Int) - 8 :=
  (wave_open_sound (wave_save [0, 1, 2, 3] 4 1 44100 suint16)
    { riff_chunk :=
        { chunk_id := LE_RIFF_CHUNK_ID, chunk_size := 40, format := LE_WAVE_CHUNK_ID }
      fmt_chunk :=
        { subchunk_id := LE_FMT_CHUNK_ID, subchunk_size := 16, audio_format := 1,
          num_channels := 1, sample_rate := 44100, byte_rate := 88200,
          block_align := 2, bits_per_sample := 16 }
      data_chunk :=
        { subchunk_id := LE_DATA_CHUNK_ID, subchunk_size := 4, data := [0, 1, 2, 3] }
      is_loaded := 1 }
    (by rfl)).2.2.2.1 (by decide)

/-! ## Fields of an encoded stream -/

theorem cell_cons_zero (a : cint8_t) (l : List cint8_t) : cell (a :: l) 0 = a.val := by
  simp [cell]

theorem cell_cons_succ (a : cint8_t) (l : List cint8_t) (i : Nat) :
    cell (a :: l) (i + 1) = cell l i := by
  simp [cell]

theorem cell_skip4 (a b c d : cint8_t) (l : List cint8_t) (i : Nat) :
    cell (a :: b :: c :: d :: l) (i + 4) = cell l i := by
  simp [cell]

theorem cell_skip2 (a b : cint8_t) (l : List cint8_t) (i : Nat) :
    cell (a :: b :: l) (i + 2) = cell l i := by
  simp [cell]

theorem int32_at_skip32 (v : Int) (l : List cint8_t) (k : Nat) :
    int32_at (bytes_of_int32 v ++ l) (k + 4) = int32_at l k := by
  unfold int32_at bytes_of_int32
  simp only [List.cons_append, List.nil_append]
  rw [cell_skip4, show k + 4 + 1 = (k + 1) + 4 by omega, cell_skip4,
    show k + 4 + 2 = (k + 2) + 4 by omega, cell_skip4,
    show k + 4 + 3 = (k + 3) + 4 by omega, cell_skip4]

theorem int32_at_skip16 (v : Int) (l : List cint8_t) (k : Nat) :
    int32_at (bytes_of_int16 v ++ l) (k + 2) = int32_at l k := by
  unfold int32_at bytes_of_int16
  simp only [List.cons_append, List.nil_append]
  rw [cell_skip2, show k + 2 + 1 = (k + 1) + 2 by omega, cell_skip2,
    show k + 2 + 2 = (k + 2) + 2 by omega, cell_skip2,
    show k + 2 + 3 = (k + 3) + 2 by omega, cell_skip2]

theorem int16_at_skip32 (v : Int) (l : List cint8_t) (k : Nat) :
    int16_at (bytes_of_int32 v ++ l) (k + 4) = int16_at l k := by
  unfold int16_at bytes_of_int32
  simp only [List.cons_append, List.nil_append]
  rw [cell_skip4, show k + 4 + 1 = (k + 1) + 4 by omega, cell_skip4]

theorem int16_at_skip16 (v : Int) (l : List cint8_t) (k : Nat) :
    int16_at (bytes_of_int16 v ++ l) (k + 2) = int16_at l k := by
  unfold int16_at bytes_of_int16
  simp only [List.cons_append, List.nil_append]
  rw [cell_skip2, show k + 2 + 1 = (k + 1) + 2 by omega, cell_skip2]

theorem toByte_val (n : Nat) : (toByte n).val = n % 256 := rfl

/-- Reading back a stored `int32_t`. -/
theorem int32_at_bytes (v : Int) (l : List cint8_t) :
    int32_at (bytes_of_int32 v ++ l) 0 = toInt32 v := by
  unfold int32_at bytes_of_int32
  simp only [List.cons_append, List.nil_append]
  rw [cell_cons_zero, cell_cons_succ, cell_cons_zero, show (0 + 2 : Nat) = 1 + 1 by rfl,
    cell_cons_succ, cell_cons_succ, cell_cons_zero, show (0 + 3 : Nat) = 2 + 1 by rfl,
    cell_cons_succ, show (2 : Nat) = 1 + 1 by rfl, cell_cons_succ, cell_cons_succ,
    cell_cons_zero]
  simp only [toByte_val]
  unfold toInt32
  omega

/-- Reading back a stored `int16_t`. -/
theorem int16_at_bytes (v : Int) (l : List cint8_t) :
    int16_at (bytes_of_int16 v ++ l) 0 = toInt16 v := by
  unfold int16_at bytes_of_int16
  simp only [List.cons_append, List.nil_append]
  rw [cell_cons_zero, cell_cons_succ, cell_cons_zero]
  simp only [toByte_val]
  unfold toInt16
  omega

theorem length_bytes_of_int32 (v : Int) : (bytes_of_int32 v).length = 4 := rfl

theorem length_bytes_of_int16 (v : Int) : (bytes_of_int16 v).length = 2 := rfl

theorem toByte_mod (n : Nat) : toByte (n % 256) = toByte n := by
  apply Fin.ext
  simp [toByte]

theorem bytes_of_int32_eq_le (v : Int) : bytes_of_int32 v = le_field32 v := by
  unfold bytes_of_int32 le_field32
  simp only [le_digits, toByte_mod, Nat.div_div_eq_div_mul]

theorem bytes_of_int16_eq_le (v : Int) : bytes_of_int16 v = le_field16 v := by
  unfold bytes_of_int16 le_field16
  simp only [le_digits, toByte_mod]

theorem bytes_of_int32_toInt32 (v : Int) : bytes_of_int32 (toInt32 v) = bytes_of_int32 v := by
  unfold bytes_of_int32
  have e : toInt32 v % 4294967296 = v % 4294967296 := by
    unfold toInt32; omega
  rw [e]

theorem take_of_length {data : List cint8_t} {data_size : Int}
    (hlen : (data.length : Int) = data_size) (hfit : 44 + data_size ≤ 2147483647) :
    data.take (toSizeT data_size) = data := by
  have e : toSizeT data_size = data.length := by
    rw [toSizeT_of_nonneg (by omega) (by omega), ← hlen, Int.toNat_ofNat]
  rw [e, List.take_length]

theorem toInt16_of_range {x : Int} (h1 : -32768 ≤ x) (h2 : x < 32768) : toInt16 x = x := by
  unfold toInt16; omega

theorem toInt32_toInt32 (x : Int) : toInt32 (toInt32 x) = toInt32 x := by
  unfold toInt32; omega

theorem toInt16_toInt16 (x : Int) : toInt16 (toInt16 x) = toInt16 x := by
  unfold toInt16; omega

/-- The stream of `wave_save` as a sequence of stored fields followed by the payload. -/
theorem wave_save_blocks (data : List cint8_t) (data_size num_channels sample_rate : Int)
    (sample_type : sample_type_t) :
    wave_save data data_size num_channels sample_rate sample_type
      = bytes_of_int32 LE_RIFF_CHUNK_ID
        ++ (bytes_of_int32 (toInt32 (RIFF_CHUNK_OFFSET + (NORMAL_CHUNK_OFFSET + PCM_FMT_CHUNK_SIZE)
              + (NORMAL_CHUNK_OFFSET + data_size)))
        ++ (bytes_of_int32 LE_WAVE_CHUNK_ID
        ++ (bytes_of_int32 LE_FMT_CHUNK_ID
        ++ (bytes_of_int32 PCM_FMT_CHUNK_SIZE
        ++ (bytes_of_int16 PCM_AUDIO_FORMAT
        ++ (bytes_of_int16 num_channels
        ++ (bytes_of_int32 sample_rate
        ++ (bytes_of_int32 (wave_calculate_byte_rate sample_rate num_channels
              (wave_get_bits_per_sample sample_type))
        ++ (bytes_of_int16 (wave_calculate_block_align num_channels
              (wave_get_bits_per_sample sample_type))
        ++ (bytes_of_int16 (wave_get_bits_per_sample sample_type)
        ++ (bytes_of_int32 LE_DATA_CHUNK_ID
        ++ (bytes_of_int32 data_size
        ++ data.take (toSizeT data_size))))))))))))) := by
  unfold wave_save
  simp only [List.append_assoc]

theorem riff_size_arith (data_size : Int) (L : Nat) (hL : (L : Int) = 44 + data_size)
    (hfit : 44 + data_size ≤ 2147483647) :
    toInt32 (toInt32 (4 + (8 + 16) + (8 + data_size))) = toInt32 (toInt32 (L : Int) - 8)
      ∧ data_size ≤ toInt32 (toInt32 (toInt32 (L : Int) - 8) - 24 - 12)
      ∧ toInt32 (toInt32 (4 + (8 + 16) + (8 + data_size))) = 36 + data_size
      ∧ toInt32 data_size = data_size := by
  unfold toInt32; omega

theorem bits_per_sample_range (sample_type : sample_type_t) :
    -32768 ≤ wave_get_bits_per_sample sample_type
      ∧ wave_get_bits_per_sample sample_type < 32768 := by
  unfold wave_get_bits_per_sample
  split_ifs <;> decide

theorem drop_skip32 (v : Int) (l : List cint8_t) (k : Nat) :
    List.drop (k + 4) (bytes_of_int32 v ++ l) = List.drop k l := by
  unfold bytes_of_int32
  simp only [List.cons_append, List.nil_append, List.drop_succ_cons]

theorem drop_skip16 (v : Int) (l : List cint8_t) (k : Nat) :
    List.drop (k + 2) (bytes_of_int16 v ++ l) = List.drop k l := by
  unfold bytes_of_int16
  simp only [List.cons_append, List.nil_append, List.drop_succ_cons]

theorem wave_save_length (data : List cint8_t) (data_size num_channels sample_rate : Int)
    (sample_type : sample_type_t) (hlen : (data.length : Int) = data_size)
    (hfit : 44 + data_size ≤ 2147483647) :
    ((wave_save data data_size num_channels sample_rate sample_type).length : Int)
      = 44 + data_size := by
  rw [wave_save_blocks, take_of_length hlen hfit, ← hlen]
  simp only [List.length_append, length_bytes_of_int32, length_bytes_of_int16]
  omega

/-- What each field of the stream written by `wave_save` reads as. -/
theorem wave_save_fields (data : List cint8_t) (data_size num_channels sample_rate : Int)
    (sample_type : sample_type_t) (F : List cint8_t)
    (hF : F = wave_save data data_size num_channels sample_rate sample_type)
    (hlen : (data.length : Int) = data_size) (hfit : 44 + data_size ≤ 2147483647)
    (hnc : -32768 ≤ num_channels ∧ num_channels ≤ 32767)
    (hsr : -2147483648 ≤ sample_rate ∧ sample_rate ≤ 2147483647) :
    (int32_at F 0 = LE_RIFF_CHUNK_ID ∧ int32_at F 4 = 36 + data_size
        ∧ int32_at F 8 = LE_WAVE_CHUNK_ID ∧ int32_at F 12 = LE_FMT_CHUNK_ID
        ∧ int32_at F 16 = 16 ∧ int16_at F 20 = 1 ∧ int16_at F 22 = num_channels
        ∧ int32_at F 24 = sample_rate)
      ∧ (int32_at F 28 = wave_calculate_byte_rate sample_rate num_channels
            (wave_get_bits_per_sample sample_type)
        ∧ int16_at F 32 = wave_calculate_block_align num_channels
            (wave_get_bits_per_sample sample_type)
        ∧ int16_at F 34 = wave_get_bits_per_sample sample_type
        ∧ int32_at F 36 = LE_DATA_CHUNK_ID ∧ int32_at F (36 + 4) = data_size
        ∧ List.drop (36 + 8) F = data)
      ∧ (int32_at F 4 = toInt32 (toInt32 (F.length : Int) - 8)
        ∧ data_size ≤ toInt32 (toInt32 (toInt32 (F.length : Int) - 8) - 24 - 12)) := by
  have hlength := wave_save_length data data_size num_channels sample_rate sample_type
    hlen hfit
  rw [← hF] at hlength
  rw [wave_save_blocks] at hF
  have hbps := bits_per_sample_range sample_type
  have har := riff_size_arith data_size F.length hlength hfit
  have f0 : int32_at F 0 = LE_RIFF_CHUNK_ID := by
    rw [hF, int32_at_bytes]; decide
  have f4 : int32_at F 4 = 36 + data_size := by
    rw [hF]; simp only [int32_at_skip32, int32_at_bytes]; exact har.2.2.1
  have f8 : int32_at F 8 = LE_WAVE_CHUNK_ID := by
    rw [hF]; simp only [int32_at_skip32, int32_at_bytes]; decide
  have f12 : int32_at F 12 = LE_FMT_CHUNK_ID := by
    rw [hF]; simp only [int32_at_skip32, int32_at_bytes]; decide
  have f16 : int32_at F 16 = 16 := by
    rw [hF]; simp only [int32_at_skip32, int32_at_bytes]; decide
  have f20 : int16_at F 20 = 1 := by
    rw [hF]; simp only [int16_at_skip32, int16_at_bytes]; decide
  have f22 : int16_at F 22 = num_channels := by
    rw [hF]; simp only [int16_at_skip32, int16_at_skip16, int16_at_bytes]
    exact toInt16_of_range (by omega) (by omega)
  have f24 : int32_at F 24 = sample_rate := by
    rw [hF]; simp only [int32_at_skip32, int32_at_skip16, int32_at_bytes]
    exact toInt32_of_range (by omega) (by omega)
  have f28 : int32_at F 28 = wave_calculate_byte_rate sample_rate num_channels
      (wave_get_bits_per_sample sample_type) := by
    rw [hF]; simp only [int32_at_skip32, int32_at_skip16, int32_at_bytes]
    exact toInt32_toInt32 _
  have f32 : int16_at F 32 = wave_calculate_block_align num_channels
      (wave_get_bits_per_sample sample_type) := by
    rw [hF]; simp only [int16_at_skip32, int16_at_skip16, int16_at_bytes]
    exact toInt16_toInt16 _
  have f34 : int16_at F 34 = wave_get_bits_per_sample sample_type := by
    rw [hF]; simp only [int16_at_skip32, int16_at_skip16, int16_at_bytes]
    exact toInt16_of_range hbps.1 hbps.2
  have f36 : int32_at F 36 = LE_DATA_CHUNK_ID := by
    rw [hF]; simp only [int32_at_skip32, int32_at_skip16, int32_at_bytes]; decide
  have f40 : int32_at F (36 + 4) = data_size := by
    rw [hF]; simp only [int32_at_skip32, int32_at_skip16, int32_at_bytes]; exact har.2.2.2
  have f44 : List.drop (36 + 8) F = data := by
    rw [hF]
    simp only [Nat.reduceAdd, drop_skip32, drop_skip16, List.drop_zero]
    exact take_of_length hlen hfit
  exact ⟨⟨f0, f4, f8, f12, f16, f20, f22, f24⟩, ⟨f28, f32, f34, f36, f40, f44⟩,
    by rw [f4, ← har.1, har.2.2.1], har.2.1⟩

/-! ## Round trip (C1, C2) -/

/-- C2: `wave_save` on the buffer `[0x00, 0x01, 0x02, 0x03]` with `data_size` 4, one
channel, 44100 Hz and `suint16` writes the 48 bytes listed, whose byte rate field is
88200, block align field 2 and RIFF size field 40; `wave_open` on that stream returns
byte rate 88200, block align 2, chunk size 40, data size 4 and the same four payload
bytes. -/
theorem concrete_scenario :
    (wave_save [0, 1, 2, 3] 4 1 44100 suint16
        = [0x52, 0x49, 0x46, 0x46, 40, 0, 0, 0, 0x57, 0x41, 0x56, 0x45,
           0x66, 0x6d, 0x74, 0x20, 16, 0, 0, 0, 1, 0, 1, 0, 0x44, 0xac, 0, 0,
           0x88, 0x58, 0x01, 0, 2, 0, 16, 0,
           0x64, 0x61, 0x74, 0x61, 4, 0, 0, 0, 0, 1, 2, 3])
      ∧ ((wave_save [0, 1, 2, 3] 4 1 44100 suint16).drop 28).take 4 = le_field32 88200
      ∧ ((wave_save [0, 1, 2, 3] 4 1 44100 suint16).drop 32).take 2 = le_field16 2
      ∧ ((wave_save [0, 1, 2, 3] 4 1 44100 suint16).drop 4).take 4 = le_field32 40
      ∧ wave_open (wave_save [0, 1, 2, 3] 4 1 44100 suint16)
        = .ok
            { riff_chunk :=
                { chunk_id := LE_RIFF_CHUNK_ID, chunk_size := 40, format := LE_WAVE_CHUNK_ID }
              fmt_chunk :=
                { subchunk_id := LE_FMT_CHUNK_ID, subchunk_size := 16, audio_format := 1,
                  num_channels := 1, sample_rate := 44100, byte_rate := 88200,
                  block_align := 2, bits_per_sample := 16 }
              data_chunk :=
                { subchunk_id := LE_DATA_CHUNK_ID, subchunk_size := 4, data := [0, 1, 2, 3] }
              is_loaded := 1 } := by
  refine ⟨by decide, by decide, by decide, by decide, by rfl⟩

/-! ## Encoder layout (C3) -/

/-- C3: for a buffer of `data_size` bytes with `44 + data_size ≤ 2^31 - 1`, the stream
written by `wave_save` is, all integers little-endian, `RIFF`, the 32-bit
`4 + (8 + 16) + (8 + data_size)`, `WAVE`, `fmt `, the 32-bit 16, the 16-bit 1, the 16-bit
channel count, the 32-bit sample rate, the 32-bit byte rate, the 16-bit block align, the
16-bit bits per sample, `data`, the 32-bit `data_size` and the payload unchanged; it is
`44 + data_size` bytes long and its RIFF size field holds that length minus 8. -/
theorem wave_save_layout (data : List cint8_t) (data_size num_channels sample_rate : Int)
    (sample_type : sample_type_t) (hlen : (data.length : Int) = data_size)
    (hfit : 44 + data_size ≤ 2147483647) :
    wave_save data data_size num_channels sample_rate sample_type
        = tag_bytes "RIFF" ++ le_field32 (4 + (8 + 16) + (8 + data_size)) ++ tag_bytes "WAVE"
          ++ tag_bytes "fmt " ++ le_field32 16 ++ le_field16 1 ++ le_field16 num_channels
          ++ le_field32 sample_rate
          ++ le_field32 (wave_calculate_byte_rate sample_rate num_channels
              (wave_get_bits_per_sample sample_type))
          ++ le_field16 (wave_calculate_block_align num_channels
              (wave_get_bits_per_sample sample_type))
          ++ le_field16 (wave_get_bits_per_sample sample_type)
          ++ tag_bytes "data" ++ le_field32 data_size ++ data
      ∧ ((wave_save data data_size num_channels sample_rate sample_type).length : Int)
          = 44 + data_size
      ∧ ((wave_save data data_size num_channels sample_rate sample_type).drop 4).take 4
          = le_field32
              (((wave_save data data_size num_channels sample_rate sample_type).length : Int) - 8)
      := by
  have hlayout : wave_save data data_size num_channels sample_rate sample_type
        = tag_bytes "RIFF" ++ le_field32 (4 + (8 + 16) + (8 + data_size)) ++ tag_bytes "WAVE"
          ++ tag_bytes "fmt " ++ le_field32 16 ++ le_field16 1 ++ le_field16 num_channels
          ++ le_field32 sample_rate
          ++ le_field32 (wave_calculate_byte_rate sample_rate num_channels
              (wave_get_bits_per_sample sample_type))
          ++ le_field16 (wave_calculate_block_align num_channels
              (wave_get_bits_per_sample sample_type))
          ++ le_field16 (wave_get_bits_per_sample sample_type)
          ++ tag_bytes "data" ++ le_field32 data_size ++ data := by
    unfold wave_save
    simp only []
    rw [take_of_length hlen hfit, bytes_of_int32_toInt32, tag_constants.1, tag_constants.2.1,
      tag_constants.2.2.1, tag_constants.2.2.2.1]
    simp only [bytes_of_int32_eq_le, bytes_of_int16_eq_le]
    rfl
  have hlength := wave_save_length data data_size num_channels sample_rate sample_type
    hlen hfit
  refine ⟨hlayout, hlength, ?_⟩
  rw [hlength]
  have e : (44 + data_size - 8 : Int) = 4 + (8 + 16) + (8 + data_size) := by omega
  rw [e, hlayout]
  simp only [List.append_assoc]
  rw [← tag_constants.1, ← bytes_of_int32_eq_le (4 + (8 + 16) + (8 + data_size))]
  rfl

theorem wave_save_layout_witness :
    ((wave_save [0, 1, 2, 3] 4 1 44100 suint16).length : Int) = 44 + 4 :=
  (wave_save_layout [0, 1, 2, 3] 4 1 44100 suint16 (by decide) (by decide)).2.1

/-! ## Reads in an edited stream -/

theorem cell_append (A B : List cint8_t) (i : Nat) :
    cell (A ++ B) i = if i < A.length then cell A i else cell B (i - A.length) := by
  unfold cell
  simp only [List.getD_eq_getElem?_getD, List.getElem?_append]
  split_ifs <;> rfl

theorem cell_append_left {A : List cint8_t} (B : List cint8_t) {i : Nat} (h : i < A.length) :
    cell (A ++ B) i = cell A i := by
  rw [cell_append, if_pos h]

theorem cell_append_right {A : List cint8_t} (B : List cint8_t) {i m : Nat}
    (hA : A.length = m) (h : m ≤ i) : cell (A ++ B) i = cell B (i - m) := by
  rw [cell_append, if_neg (by omega), hA]

theorem cell_take (F : List cint8_t) (m i : Nat) :
    cell (F.take m) i = if i < m then cell F i else 0 := by
  have h := cell_take_drop F 0 m i
  rw [List.drop_zero, Nat.zero_add] at h
  exact h

theorem cell_drop (F : List cint8_t) (m i : Nat) : cell (F.drop m) i = cell F (m + i) := by
  unfold cell
  simp only [List.getD_eq_getElem?_getD, List.getElem?_drop]

theorem cell_set (F : List cint8_t) (i j : Nat) (v : cint8_t) (hi : i < F.length) :
    cell (F.set i v) j = if i = j then v.val else cell F j := by
  unfold cell
  simp only [List.getD_eq_getElem?_getD, List.getElem?_set]
  split_ifs <;> rfl

theorem int32_at_congr {F G : List cint8_t} {k j : Nat}
    (h : ∀ i, i < 4 → cell F (k + i) = cell G (j + i)) : int32_at F k = int32_at G j := by
  unfold int32_at
  have h0 := h 0 (by omega)
  rw [Nat.add_zero, Nat.add_zero] at h0
  rw [h0, h 1 (by omega), h 2 (by omega), h 3 (by omega)]

theorem int16_at_congr {F G : List cint8_t} {k j : Nat}
    (h : ∀ i, i < 2 → cell F (k + i) = cell G (j + i)) : int16_at F k = int16_at G j := by
  unfold int16_at
  have h0 := h 0 (by omega)
  rw [Nat.add_zero, Nat.add_zero] at h0
  rw [h0, h 1 (by omega)]

theorem int32_at_drop (F : List cint8_t) (m k : Nat) :
    int32_at (F.drop m) k = int32_at F (m + k) :=
  int32_at_congr (fun i _ => by rw [cell_drop, Nat.add_assoc])

theorem int32_at_append_right {A : List cint8_t} (B : List cint8_t) {m : Nat} (k : Nat)
    (hA : A.length = m) : int32_at (A ++ B) (m + k) = int32_at B k :=
  int32_at_congr (fun i _ => by
    rw [cell_append_right B hA (by omega)]
    congr 1
    omega)

/-- The stream with a `LIST` chunk inserted at offset 36 and the RIFF size field
replaced by `size`. -/
theorem cell_with_list (F junk : List cint8_t) (size n : Int) (hF : 36 ≤ F.length) (i : Nat) :
    cell (F.take 4 ++ (bytes_of_int32 size ++ ((F.drop 8).take 28
        ++ (bytes_of_int32 LE_LIST_CHUNK_ID ++ (bytes_of_int32 n ++ (junk ++ F.drop 36)))))) i
      = if i < 4 then cell F i
        else if i < 8 then cell (bytes_of_int32 size) (i - 4)
        else if i < 36 then cell F i
        else if i < 40 then cell (bytes_of_int32 LE_LIST_CHUNK_ID) (i - 36)
        else if i < 44 then cell (bytes_of_int32 n) (i - 40)
        else if i < 44 + junk.length then cell junk (i - 44)
        else cell F (i - junk.length - 8) := by
  have l1 : (F.take 4).length = 4 := by rw [List.length_take]; omega
  have l2 : ((F.drop 8).take 28).length = 28 := by
    rw [List.length_take, List.length_drop]; omega
  by_cases h1 : i < 4
  · rw [if_pos h1, cell_append_left _ (by omega), cell_take, if_pos h1]
  rw [if_neg h1, cell_append_right _ l1 (by omega)]
  by_cases h2 : i < 8
  · rw [if_pos h2, cell_append_left _ (by rw [length_bytes_of_int32]; omega)]
  rw [if_neg h2, cell_append_right _ (length_bytes_of_int32 _) (by omega)]
  by_cases h3 : i < 36
  · rw [if_pos h3, cell_append_left _ (by omega), cell_take_drop, if_pos (by omega)]
    congr 1
    omega
  rw [if_neg h3, cell_append_right _ l2 (by omega)]
  by_cases h4 : i < 40
  · rw [if_pos h4, cell_append_left _ (by rw [length_bytes_of_int32]; omega)]
    congr 1
  rw [if_neg h4, cell_append_right _ (length_bytes_of_int32 _) (by omega)]
  by_cases h5 : i < 44
  · rw [if_pos h5, cell_append_left _ (by rw [length_bytes_of_int32]; omega)]
    congr 1
  rw [if_neg h5, cell_append_right _ (length_bytes_of_int32 _) (by omega)]
  by_cases h6 : i < 44 + junk.length
  · rw [if_pos h6, cell_append_left _ (by omega)]
    congr 1
  rw [if_neg h6, cell_append_right _ rfl (by omega), cell_drop]
  congr 1
  omega

/-! ## Tag rejection (C5) -/

/-- The low byte of a stored field. -/
theorem cell_of_int32_at {F : List cint8_t} {k : Nat} {t : Int} (h : int32_at F k = t) :
    (cell F k : Int) = t % 256 := by
  have b0 := cell_lt F k
  have b1 := cell_lt F (k + 1)
  have b2 := cell_lt F (k + 2)
  have b3 := cell_lt F (k + 3)
  unfold int32_at toInt32 at h
  omega

theorem cell_replicate_zero (N i : Nat) : cell (List.replicate N (0 : cint8_t)) i = 0 := by
  unfold cell
  rw [List.getD_eq_getElem?_getD, List.getElem?_replicate]
  split_ifs <;> rfl

theorem int32_at_replicate_zero (N k : Nat) :
    int32_at (List.replicate N (0 : cint8_t)) k = 0 := by
  unfold int32_at
  simp only [cell_replicate_zero]
  decide

/-- Fields of a stream in which the byte at offset 36 was overwritten. -/
theorem set36_reads (F : List cint8_t) (v : cint8_t) (h : 36 < F.length) :
    (int32_at (F.set 36 v) 0 = int32_at F 0 ∧ int32_at (F.set 36 v) 4 = int32_at F 4
        ∧ int32_at (F.set 36 v) 8 = int32_at F 8 ∧ int32_at (F.set 36 v) 12 = int32_at F 12
        ∧ int32_at (F.set 36 v) 16 = int32_at F 16 ∧ int16_at (F.set 36 v) 20 = int16_at F 20
        ∧ int16_at (F.set 36 v) 22 = int16_at F 22 ∧ int32_at (F.set 36 v) 24 = int32_at F 24)
      ∧ (int32_at (F.set 36 v) 28 = int32_at F 28 ∧ int16_at (F.set 36 v) 32 = int16_at F 32
        ∧ int16_at (F.set 36 v) 34 = int16_at F 34 ∧ cell (F.set 36 v) 36 = v.val
        ∧ int32_at (F.set 36 v) 40 = int32_at F 40
        ∧ int32_at (F.set 36 v) (40 + 4) = int32_at F (40 + 4))
      ∧ (F.set 36 v).length = F.length ∧ List.drop (40 + 8) (F.set 36 v) = List.drop (40 + 8) F
      := by
  have same32 : ∀ k, (k + 4 ≤ 36 ∨ 37 ≤ k) → int32_at (F.set 36 v) k = int32_at F k := by
    intro k hk
    apply int32_at_congr
    intro i hi
    rw [cell_set F 36 _ v h, if_neg (by omega)]
  have same16 : ∀ k, k + 2 ≤ 36 → int16_at (F.set 36 v) k = int16_at F k := by
    intro k hk
    apply int16_at_congr
    intro i hi
    rw [cell_set F 36 _ v h, if_neg (by omega)]
  refine ⟨⟨same32 0 (by omega), same32 4 (by omega), same32 8 (by omega), same32 12 (by omega),
    same32 16 (by omega), same16 20 (by omega), same16 22 (by omega), same32 24 (by omega)⟩,
    ⟨same32 28 (by omega), same16 32 (by omega), same16 34 (by omega), ?_,
      same32 40 (by omega), same32 (40 + 4) (by omega)⟩, List.length_set _ _ _, ?_⟩
  · rw [cell_set F 36 _ v h, if_pos rfl]
  · rw [List.drop_set, if_pos (by omega)]

/-- A file that passes the header checks and has the `data` tag at offset 36 is decoded as
soon as its declared data size is non-negative and within the bound. -/
theorem wave_open_direct {F : List cint8_t}
    (c1 : int32_at F 0 = LE_RIFF_CHUNK_ID)
    (c2 : int32_at F 4 = toInt32 (toInt32 F.length - 8))
    (c3 : int32_at F 8 = LE_WAVE_CHUNK_ID)
    (c4 : int32_at F 12 = LE_FMT_CHUNK_ID)
    (c5 : int16_at F 20 = PCM_AUDIO_FORMAT)
    (c6 : int32_at F 28
      = wave_calculate_byte_rate (int32_at F 24) (int16_at F 22) (int16_at F 34))
    (c7 : int16_at F 32 = wave_calculate_block_align (int16_at F 22) (int16_at F 34))
    (hdata : int32_at F 36 = LE_DATA_CHUNK_ID)
    (hb : int32_at F (36 + 4) ≤ toInt32 (toInt32 (toInt32 (F.length : Int) - 8) - 24 - 12))
    (hd0 : 0 ≤ int32_at F (36 + 4)) :
    wave_open F
      = .ok { riff_chunk := riff_at F
              fmt_chunk := fmt_at F
              data_chunk :=
                { subchunk_id := int32_at F 36
                  subchunk_size := int32_at F (36 + 4)
                  data := (F.drop (36 + 8)).take (int32_at F (36 + 4)).toNat }
              is_loaded := 1 } := by
  have nl : ¬ int32_at F 36 = LE_LIST_CHUNK_ID := by rw [hdata]; decide
  rw [wave_open_eq_at, wave_open_at_of_header c1 c2 c3 c4 c5 c6 c7]
  unfold chunks_at
  rw [if_neg nl, if_pos hdata, data_chunk_at_of _ _ hdata hb hd0]

/-- A file that passes the header checks and whose tag at offset 36 is neither `LIST` nor
`data` is decoded from offset 40 on. -/
theorem wave_open_other {F : List cint8_t}
    (c1 : int32_at F 0 = LE_RIFF_CHUNK_ID)
    (c2 : int32_at F 4 = toInt32 (toInt32 F.length - 8))
    (c3 : int32_at F 8 = LE_WAVE_CHUNK_ID)
    (c4 : int32_at F 12 = LE_FMT_CHUNK_ID)
    (c5 : int16_at F 20 = PCM_AUDIO_FORMAT)
    (c6 : int32_at F 28
      = wave_calculate_byte_rate (int32_at F 24) (int16_at F 22) (int16_at F 34))
    (c7 : int16_at F 32 = wave_calculate_block_align (int16_at F 22) (int16_at F 34))
    (nl : ¬ int32_at F 36 = LE_LIST_CHUNK_ID) (nd : ¬ int32_at F 36 = LE_DATA_CHUNK_ID) :
    wave_open F
      = data_chunk_at F (riff_at F) (fmt_at F) (toInt32 (toInt32 (F.length : Int) - 8)) 40 := by
  rw [wave_open_eq_at, wave_open_at_of_header c1 c2 c3 c4 c5 c6 c7]
  unfold chunks_at
  rw [if_neg nl, if_neg nd]

/-- C5 (the code accepts a flipped `data` tag): take the file `wave_save` writes for a
buffer of 1635017060 zero bytes, one channel, 8000 Hz, `suint8`. `wave_open` decodes it,
and its byte 36 is the `d` (0x64) of the `data` tag. With that byte replaced by 0x78,
`wave_open` still returns a loaded object, with data size 0 and an empty payload: the tag
`xata` is matched by no `case`, the stream is not moved back, and the next four bytes, the
size field 0x61746164, are accepted as the `data` tag. -/
theorem data_tag_flip_accepted :
    wave_open (wave_save (List.replicate 1635017060 0) 1635017060 1 8000 suint8)
        = .ok
            { riff_chunk :=
                { chunk_id := LE_RIFF_CHUNK_ID, chunk_size := 1635017096,
                  format := LE_WAVE_CHUNK_ID }
              fmt_chunk :=
                { subchunk_id := LE_FMT_CHUNK_ID, subchunk_size := 16, audio_format := 1,
                  num_channels := 1, sample_rate := 8000, byte_rate := 8000,
                  block_align := 1, bits_per_sample := 8 }
              data_chunk :=
                { subchunk_id := LE_DATA_CHUNK_ID, subchunk_size := 1635017060,
                  data := List.replicate 1635017060 0 }
              is_loaded := 1 }
      ∧ cell (wave_save (List.replicate 1635017060 0) 1635017060 1 8000 suint8) 36 = 0x64
      ∧ wave_open
          ((wave_save (List.replicate 1635017060 0) 1635017060 1 8000 suint8).set 36 0x78)
        = .ok
            { riff_chunk :=
                { chunk_id := LE_RIFF_CHUNK_ID, chunk_size := 1635017096,
                  format := LE_WAVE_CHUNK_ID }
              fmt_chunk :=
                { subchunk_id := LE_FMT_CHUNK_ID, subchunk_size := 16, audio_format := 1,
                  num_channels := 1, sample_rate := 8000, byte_rate := 8000,
                  block_align := 1, bits_per_sample := 8 }
              data_chunk := { subchunk_id := LE_DATA_CHUNK_ID, subchunk_size := 0, data := [] }
              is_loaded := 1 } := by
  have hlen : ((List.replicate 1635017060 (0 : cint8_t)).length : Int) = 1635017060 := by
    rw [List.length_replicate]; rfl
  have hz : int32_at (List.replicate 1635017060 (0 : cint8_t)) 0 = 0 :=
    int32_at_replicate_zero _ _
  generalize List.replicate 1635017060 (0 : cint8_t) = data at hlen hz ⊢
  have ht : List.take (1635017060 : Int).toNat data = data := by
    apply List.take_of_length_le
    omega
  have hbr : wave_calculate_byte_rate 8000 1 (wave_get_bits_per_sample suint8) = 8000 := by
    decide
  have hba : wave_calculate_block_align 1 (wave_get_bits_per_sample suint8) = 1 := by
    decide
  have hbp : wave_get_bits_per_sample suint8 = 8 := by decide
  obtain ⟨⟨f0, f4, f8, f12, f16, f20, f22, f24⟩, ⟨f28, f32, f34, f36, f40, f44⟩, c2, hb0⟩ :=
    wave_save_fields data 1635017060 1 8000 suint8 _ rfl hlen (by decide) (by decide)
      (by decide)
  generalize wave_save data 1635017060 1 8000 suint8 = F at *
  rw [hbr] at f28
  rw [hba] at f32
  rw [hbp] at f34
  have f4' : int32_at F 4 = 1635017096 := f4
  have c6 : int32_at F 28
      = wave_calculate_byte_rate (int32_at F 24) (int16_at F 22) (int16_at F 34) := by
    rw [f28, f24, f22, f34]; decide
  have c7 : int16_at F 32 = wave_calculate_block_align (int16_at F 22) (int16_at F 34) := by
    rw [f32, f22, f34]; decide
  have hd0 : (0 : Int) ≤ 1635017060 := by decide
  have h40 : 36 + 4 ≤ F.length := int32_at_in_bounds f36 (by decide)
  have h36 : 36 < F.length := Nat.lt_of_lt_of_le (by decide) h40
  refine ⟨?_, ?_, ?_⟩
  · rw [wave_open_direct f0 c2 f8 f12 f20 c6 c7 f36 (by rw [f40]; exact hb0)
      (by rw [f40]; exact hd0), f44, f40, f36, ht]
    unfold riff_at fmt_at
    rw [f0, f4', f8, f12, f16, f20, f22, f24, f28, f32, f34]
  · have h := cell_of_int32_at f36
    have e : LE_DATA_CHUNK_ID % 256 = ((100 : Nat) : Int) := by decide
    rw [e] at h
    exact Int.ofNat_inj.mp h
  · obtain ⟨⟨s0, s4, s8, s12, s16, s20, s22, s24⟩, ⟨s28, s32, s34, s36, s40, s44⟩, sl, sd⟩ :=
      set36_reads F 0x78 h36
    have nl : ¬ int32_at (F.set 36 0x78) 36 = LE_LIST_CHUNK_ID := by
      intro hcon
      have h := cell_of_int32_at hcon
      rw [s36] at h
      exact absurd h (by decide)
    have nd : ¬ int32_at (F.set 36 0x78) 36 = LE_DATA_CHUNK_ID := by
      intro hcon
      have h := cell_of_int32_at hcon
      rw [s36] at h
      exact absurd h (by decide)
    have g44 : int32_at F (40 + 4) = 0 := by
      have h := int32_at_drop F (36 + 8) 0
      rw [f44, hz] at h
      exact h.symm
    have t40 : int32_at (F.set 36 0x78) 40 = LE_DATA_CHUNK_ID := s40.trans f40
    rw [wave_open_other (s0.trans f0) (by rw [s4, sl]; exact c2) (s8.trans f8) (s12.trans f12)
        (s20.trans f20) (by rw [s28, s24, s22, s34]; exact c6)
        (by rw [s32, s22, s34]; exact c7) nl nd,
      data_chunk_at_of _ _ t40 (by rw [s44, g44, sl]; exact Int.le_trans hd0 hb0)
        (by rw [s44, g44]),
      s44, g44, t40]
    unfold riff_at fmt_at
    rw [s0, s4, s8, s12, s16, s20, s22, s24, s28, s32, s34,
      f0, f4', f8, f12, f16, f20, f22, f24, f28, f32, f34]
    rfl

/-! ## Decoder soundness on a stream longer than `int32_t` holds (C4) -/

theorem int32_at_append_left {A : List cint8_t} (B : List cint8_t) {k : Nat}
    (h : k + 4 ≤ A.length) : int32_at (A ++ B) k = int32_at A k :=
  int32_at_congr (fun i _ => cell_append_left B (by omega))

theorem int16_at_append_left {A : List cint8_t} (B : List cint8_t) {k : Nat}
    (h : k + 2 ≤ A.length) : int16_at (A ++ B) k = int16_at A k :=
  int16_at_congr (fun i _ => cell_append_left B (by omega))

theorem take_drop_append_left (A B : List cint8_t) (p n : Nat) (h : p + n ≤ A.length) :
    ((A ++ B).drop p).take n = (A.drop p).take n := by
  rw [List.drop_append_of_le_length (by omega),
    List.take_append_of_le_length (by rw [List.length_drop]; omega)]

/-- A file that passes the header checks and has the tag `LIST` at offset 36 is decoded
from the offset at which the `LIST` case leaves the stream, against the running size
reduced by the `LIST` size field plus 8. -/
theorem wave_open_list {F : List cint8_t}
    (c1 : int32_at F 0 = LE_RIFF_CHUNK_ID)
    (c2 : int32_at F 4 = toInt32 (toInt32 F.length - 8))
    (c3 : int32_at F 8 = LE_WAVE_CHUNK_ID)
    (c4 : int32_at F 12 = LE_FMT_CHUNK_ID)
    (c5 : int16_at F 20 = PCM_AUDIO_FORMAT)
    (c6 : int32_at F 28
      = wave_calculate_byte_rate (int32_at F 24) (int16_at F 22) (int16_at F 34))
    (c7 : int16_at F 32 = wave_calculate_block_align (int16_at F 22) (int16_at F 34))
    (hl : int32_at F 36 = LE_LIST_CHUNK_ID) :
    wave_open F
      = data_chunk_at F (riff_at F) (fmt_at F)
          (toInt32 (toInt32 (toInt32 (F.length : Int) - 8) - toInt32 (int32_at F 40 + 8)))
          (list_end F (int32_at F 40)) := by
  rw [wave_open_eq_at, wave_open_at_of_header c1 c2 c3 c4 c5 c6 c7]
  unfold chunks_at
  rw [if_pos hl]

/-- C4 (as stated, refuted): the 48 bytes `wave_save` writes for the buffer
`[0, 1, 2, 3]` (one channel, 44100 Hz, `suint16`), followed by 4294967296 zero bytes, form
a stream of length `L = 4294967344`. `get_file_size` holds that length in an `int32_t`, as
48, so the stored chunk size 40 passes the size check and `wave_open` returns an object
whose `chunk_size` is 40, not `L - 8 = 4294967336`. -/
theorem huge_file_chunk_size_counterexample :
    wave_open (wave_save [0, 1, 2, 3] 4 1 44100 suint16 ++ List.replicate 4294967296 0)
        = .ok
            { riff_chunk :=
                { chunk_id := LE_RIFF_CHUNK_ID, chunk_size := 40, format := LE_WAVE_CHUNK_ID }
              fmt_chunk :=
                { subchunk_id := LE_FMT_CHUNK_ID, subchunk_size := 16, audio_format := 1,
                  num_channels := 1, sample_rate := 44100, byte_rate := 88200,
                  block_align := 2, bits_per_sample := 16 }
              data_chunk :=
                { subchunk_id := LE_DATA_CHUNK_ID, subchunk_size := 4, data := [0, 1, 2, 3] }
              is_loaded := 1 }
      ∧ (wave_save [0, 1, 2, 3] 4 1 44100 suint16 ++ List.replicate 4294967296 0).length
          = 4294967344
      ∧ (40 : Int) ≠ ((4294967344 : Nat) : Int) - 8 := by
  have hpad : (List.replicate 4294967296 (0 : cint8_t)).length = 4294967296 :=
    List.length_replicate _ _
  generalize List.replicate 4294967296 (0 : cint8_t) = pad at hpad ⊢
  generalize hA : wave_save [0, 1, 2, 3] 4 1 44100 suint16 = A
  have hlenA : A.length = 48 := by rw [← hA]; decide
  have hlenF : (A ++ pad).length = 4294967344 := by
    rw [List.length_append, hlenA, hpad]
  have f0 : int32_at A 0 = LE_RIFF_CHUNK_ID := by rw [← hA]; decide
  have f4 : int32_at A 4 = 40 := by rw [← hA]; decide
  have f8 : int32_at A 8 = LE_WAVE_CHUNK_ID := by rw [← hA]; decide
  have f12 : int32_at A 12 = LE_FMT_CHUNK_ID := by rw [← hA]; decide
  have f16 : int32_at A 16 = 16 := by rw [← hA]; decide
  have f20 : int16_at A 20 = 1 := by rw [← hA]; decide
  have f22 : int16_at A 22 = 1 := by rw [← hA]; decide
  have f24 : int32_at A 24 = 44100 := by rw [← hA]; decide
  have f28 : int32_at A 28 = 88200 := by rw [← hA]; decide
  have f32 : int16_at A 32 = 2 := by rw [← hA]; decide
  have f34 : int16_at A 34 = 16 := by rw [← hA]; decide
  have f36 : int32_at A 36 = LE_DATA_CHUNK_ID := by rw [← hA]; decide
  have f40 : int32_at A (36 + 4) = 4 := by rw [← hA]; decide
  have f44 : (A.drop (36 + 8)).take 4 = [0, 1, 2, 3] := by rw [← hA]; decide
  clear hA
  have hin : ∀ k, k ≤ 48 → k ≤ A.length := fun k hk => Nat.le_trans hk (Nat.le_of_eq hlenA.symm)
  have g0 := (int32_at_append_left pad (hin _ (by decide))).trans f0
  have g4 := (int32_at_append_left pad (hin _ (by decide))).trans f4
  have g8 := (int32_at_append_left pad (hin _ (by decide))).trans f8
  have g12 := (int32_at_append_left pad (hin _ (by decide))).trans f12
  have g16 := (int32_at_append_left pad (hin _ (by decide))).trans f16
  have g20 := (int16_at_append_left pad (hin _ (by decide))).trans f20
  have g22 := (int16_at_append_left pad (hin _ (by decide))).trans f22
  have g24 := (int32_at_append_left pad (hin _ (by decide))).trans f24
  have g28 := (int32_at_append_left pad (hin _ (by decide))).trans f28
  have g32 := (int16_at_append_left pad (hin _ (by decide))).trans f32
  have g34 := (int16_at_append_left pad (hin _ (by decide))).trans f34
  have g36 := (int32_at_append_left pad (hin _ (by decide))).trans f36
  have g40 := (int32_at_append_left pad (hin _ (by decide))).trans f40
  have g44 := (take_drop_append_left A pad (36 + 8) 4 (hin _ (by decide))).trans f44
  refine ⟨?_, hlenF, by decide⟩
  generalize A ++ pad = F at *
  have c2 : int32_at F 4 = toInt32 (toInt32 (F.length : Int) - 8) := by
    rw [g4, hlenF]; decide
  have c6 : int32_at F 28
      = wave_calculate_byte_rate (int32_at F 24) (int16_at F 22) (int16_at F 34) := by
    rw [g28, g24, g22, g34]; decide
  have c7 : int16_at F 32 = wave_calculate_block_align (int16_at F 22) (int16_at F 34) := by
    rw [g32, g22, g34]; decide
  have hb : int32_at F (36 + 4) ≤ toInt32 (toInt32 (toInt32 (F.length : Int) - 8) - 24 - 12) := by
    rw [g40, hlenF]; decide
  have hd0 : 0 ≤ int32_at F (36 + 4) := by rw [g40]; decide
  have e4 : (4 : Int).toNat = 4 := rfl
  rw [wave_open_direct g0 c2 g8 g12 g20 c6 c7 g36 hb hd0, g40, e4, g44, g36]
  unfold riff_at fmt_at
  rw [g0, g4, g8, g12, g16, g20, g22, g24, g28, g32, g34]

/-! ## Size-bound rejection (C6) -/

/-- A file on which `wave_open` stops at none of the seven header checks passes them. -/
theorem header_of_pass {F : List cint8_t}
    (h1 : wave_open_at F ≠ .error .RIFF_CHUNK_ID)
    (h2 : wave_open_at F ≠ .error .RIFF_CHUNK_SIZE)
    (h3 : wave_open_at F ≠ .error .WAVE_CHUNK_ID)
    (h4 : wave_open_at F ≠ .error .FMT_SUBCHUNK_ID)
    (h5 : wave_open_at F ≠ .error .AUDIO_FORMAT)
    (h6 : wave_open_at F ≠ .error .BYTE_RATE)
    (h7 : wave_open_at F ≠ .error .BLOCK_ALIGN) :
    wave_open_at F = chunks_at F := by
  unfold wave_open_at at h1 h2 h3 h4 h5 h6 h7 ⊢
  by_cases c1 : int32_at F 0 = LE_RIFF_CHUNK_ID
  swap
  · rw [if_pos c1] at h1; exact absurd rfl h1
  rw [if_neg (not_not.mpr c1)] at h2 h3 h4 h5 h6 h7 ⊢
  by_cases c2 : int32_at F 4 = toInt32 (toInt32 F.length - 8)
  swap
  · rw [if_pos c2] at h2; exact absurd rfl h2
  rw [if_neg (not_not.mpr c2)] at h3 h4 h5 h6 h7 ⊢
  by_cases c3 : int32_at F 8 = LE_WAVE_CHUNK_ID
  swap
  · rw [if_pos c3] at h3; exact absurd rfl h3
  rw [if_neg (not_not.mpr c3)] at h4 h5 h6 h7 ⊢
  by_cases c4 : int32_at F 12 = LE_FMT_CHUNK_ID
  swap
  · rw [if_pos c4] at h4; exact absurd rfl h4
  rw [if_neg (not_not.mpr c4)] at h5 h6 h7 ⊢
  by_cases c5 : int16_at F 20 = PCM_AUDIO_FORMAT
  swap
  · rw [if_pos c5] at h5; exact absurd rfl h5
  rw [if_neg (not_not.mpr c5)] at h6 h7 ⊢
  by_cases c6 : int32_at F 28
      = wave_calculate_byte_rate (int32_at F 24) (int16_at F 22) (int16_at F 34)
  swap
  · rw [if_pos c6] at h6; exact absurd rfl h6
  rw [if_neg (not_not.mpr c6)] at h7 ⊢
  by_cases c7 : int16_at F 32 = wave_calculate_block_align (int16_at F 22) (int16_at F 34)
  swap
  · rw [if_pos c7] at h7; exact absurd rfl h7
  rw [if_neg (not_not.mpr c7)]

/-- The data subchunk reader fails at the bound check once the tag is right and the
declared size exceeds the bound. -/
theorem data_chunk_at_size_error (F : List cint8_t) (r : wave_riff_chunk_t)
    (f : wave_fmt_chunk_t) {ccs : Int} {p : Nat} (c1 : int32_at F p = LE_DATA_CHUNK_ID)
    (c2 : int32_at F (p + 4) > toInt32 (ccs - 24 - 12)) :
    data_chunk_at F r f ccs p = .error .DATA_SUBCHUNK_SIZE := by
  unfold data_chunk_at
  rw [if_neg (not_not.mpr c1), if_pos c2]

theorem data_chunk_at_tag_error (F : List cint8_t) (r : wave_riff_chunk_t)
    (f : wave_fmt_chunk_t) {ccs : Int} {p : Nat} (c1 : ¬ int32_at F p = LE_DATA_CHUNK_ID) :
    data_chunk_at F r f ccs p = .error .DATA_SUBCHUNK_ID := by
  unfold data_chunk_at
  rw [if_pos c1]

theorem toInt32_sub_left (x c : Int) : toInt32 (toInt32 x - c) = toInt32 (x - c) := by
  unfold toInt32; omega

theorem toInt32_sub_right (x c : Int) : toInt32 (x - toInt32 c) = toInt32 (x - c) := by
  unfold toInt32; omega

theorem direct_bound_arith (L : Nat) (d : Int) (hd : d < 2147483648)
    (hs : d > ((L - (36 + 8) : Nat) : Int)) :
    d > toInt32 (toInt32 (toInt32 (L : Int) - 8) - 24 - 12) := by
  have e : toInt32 (toInt32 (toInt32 (L : Int) - 8) - 24 - 12) = toInt32 ((L : Int) - 44) := by
    simp only [Int.sub_sub, toInt32_sub_left]
    exact congrArg toInt32 (by omega)
  rw [e]
  unfold toInt32
  omega

theorem list_end_of_in_bounds (L : Nat) (n : Int) (e : Nat) (hn : 0 ≤ n)
    (he : e = if 0 ≤ ((min 44 L : Nat) : Int) + n then (((min 44 L : Nat) : Int) + n).toNat
      else min 44 L)
    (hin : e + 4 ≤ L) : (e : Int) = 44 + n := by
  rw [if_pos (by omega)] at he
  omega

theorem list_bound_arith (L p : Nat) (n d : Int) (hd : d < 2147483648)
    (hp : (p : Int) = 44 + n) (hin : p + 4 ≤ L) (hs : d > ((L - (p + 8) : Nat) : Int)) :
    d > toInt32 (toInt32 (toInt32 (toInt32 (L : Int) - 8) - toInt32 (n + 8)) - 24 - 12) := by
  have e : toInt32 (toInt32 (toInt32 (toInt32 (L : Int) - 8) - toInt32 (n + 8)) - 24 - 12)
      = toInt32 ((L : Int) - 52 - n) := by
    simp only [Int.sub_sub, toInt32_sub_left, toInt32_sub_right]
    exact congrArg toInt32 (by omega)
  rw [e]
  unfold toInt32
  omega

/-- C6: let `F` pass the container-header, the format-descriptor and the data-tag checks
of `wave_open` (it stops with none of their eight errors), with the data subchunk at offset
`p`, where either the `data` tag follows the format descriptor (`p = 36`) or a `LIST` chunk
of size `n ≥ 0` does (`p = 44 + n`). If the declared data size, the field at `p + 4`,
exceeds the number of bytes of `F` after offset `p + 8`, `wave_open` stops with
`DATA_SUBCHUNK_SIZE`. -/
theorem size_bound_rejection (F : List cint8_t) (p : Nat)
    (hpass : wave_open F ≠ .error .RIFF_CHUNK_ID ∧ wave_open F ≠ .error .RIFF_CHUNK_SIZE
      ∧ wave_open F ≠ .error .WAVE_CHUNK_ID ∧ wave_open F ≠ .error .FMT_SUBCHUNK_ID
      ∧ wave_open F ≠ .error .AUDIO_FORMAT ∧ wave_open F ≠ .error .BYTE_RATE
      ∧ wave_open F ≠ .error .BLOCK_ALIGN ∧ wave_open F ≠ .error .DATA_SUBCHUNK_ID)
    (hplace : (int32_at F 36 = LE_DATA_CHUNK_ID ∧ p = 36)
      ∨ (int32_at F 36 = LE_LIST_CHUNK_ID ∧ 0 ≤ int32_at F 40
          ∧ (p : Int) = 44 + int32_at F 40))
    (hsize : int32_at F (p + 4) > ((F.length - (p + 8) : Nat) : Int)) :
    wave_open F = .error .DATA_SUBCHUNK_SIZE := by
  rw [wave_open_eq_at] at hpass ⊢
  obtain ⟨h1, h2, h3, h4, h5, h6, h7, h8⟩ := hpass
  have hc := header_of_pass h1 h2 h3 h4 h5 h6 h7
  rw [hc] at h8 ⊢
  unfold chunks_at at h8 ⊢
  rcases hplace with ⟨hd, hp⟩ | ⟨hl, hn, hp⟩
  · have nl : ¬ int32_at F 36 = LE_LIST_CHUNK_ID := by rw [hd]; decide
    rw [hp] at hsize
    rw [if_neg nl, if_pos hd]
    exact data_chunk_at_size_error F _ _ hd
      (direct_bound_arith F.length _ (int32_at_range F (36 + 4)).2 hsize)
  · rw [if_pos hl] at h8 ⊢
    have htag : int32_at F (list_end F (int32_at F 40)) = LE_DATA_CHUNK_ID := by
      by_contra hcon
      exact h8 (data_chunk_at_tag_error F _ _ hcon)
    have hin := int32_at_in_bounds htag (by decide)
    have he := list_end_of_in_bounds F.length (int32_at F 40) (list_end F (int32_at F 40)) hn
      rfl hin
    have hpe : p = list_end F (int32_at F 40) := Int.ofNat_inj.mp (hp.trans he.symm)
    rw [← hpe] at htag hin ⊢
    exact data_chunk_at_size_error F _ _ htag
      (list_bound_arith F.length p (int32_at F 40) _ (int32_at_range F (p + 4)).2 hp hin hsize)

theorem size_bound_rejection_witness :
    wave_open ((wave_save [0, 1, 2, 3] 4 1 44100 suint16).set 40 5)
      = .error .DATA_SUBCHUNK_SIZE :=
  size_bound_rejection ((wave_save [0, 1, 2, 3] 4 1 44100 suint16).set 40 5) 36
    ⟨by decide, by decide, by decide, by decide, by decide, by decide, by decide, by decide⟩
    (Or.inl ⟨by decide, rfl⟩) (by decide)

/-! ## Skippable-chunk tolerance (C7) -/

theorem drop_append_right {A : List cint8_t} (B : List cint8_t) {m : Nat} (k : Nat)
    (hA : A.length = m) : List.drop (m + k) (A ++ B) = List.drop k B := by
  rw [List.drop_append_eq_append_drop, List.drop_eq_nil_of_le (by omega), hA, List.nil_append]
  congr 1
  omega

theorem list_arith (L jl : Nat) (n c : Int) (hn : (jl : Int) = n)
    (hfit : (L : Int) + 8 + n < 2147483648) (hc : c = toInt32 (toInt32 (L : Int) - 8)) :
    c = (L : Int) - 8
      ∧ toInt32 (c + (n + 8)) = c + (n + 8)
      ∧ c + (n + 8) = toInt32 (toInt32 (((L + (8 + jl) : Nat) : Int)) - 8)
      ∧ toInt32 (toInt32 (toInt32 (((L + (8 + jl) : Nat) : Int)) - 8) - toInt32 (n + 8))
          = toInt32 (toInt32 (L : Int) - 8)
      ∧ toInt32 n = n := by
  have a1 : toInt32 (L : Int) = L := toInt32_of_range (by omega) (by omega)
  have a2 : toInt32 ((L : Int) - 8) = L - 8 := toInt32_of_range (by omega) (by omega)
  have a3 : toInt32 (((L + (8 + jl) : Nat) : Int)) = L + 8 + n :=
    (toInt32_of_range (by omega) (by omega)).trans (by omega)
  have a4 : toInt32 ((L : Int) + 8 + n - 8) = L + n :=
    (toInt32_of_range (by omega) (by omega)).trans (by omega)
  have a5 : toInt32 (n + 8) = n + 8 := toInt32_of_range (by omega) (by omega)
  have a6 : toInt32 ((L : Int) + n - (n + 8)) = L - 8 :=
    (toInt32_of_range (by omega) (by omega)).trans (by omega)
  have a7 : toInt32 ((L : Int) - 8 + (n + 8)) = L - 8 + (n + 8) :=
    toInt32_of_range (by omega) (by omega)
  have a8 : toInt32 n = n := toInt32_of_range (by omega) (by omega)
  rw [a1, a2] at hc
  rw [hc, a1, a2, a3, a4, a5, a6, a7]
  exact ⟨rfl, rfl, by omega, rfl, a8⟩

/-- A decoded file is at least 44 bytes long when its data tag stands at offset 36. -/
theorem length_of_direct_data (L : Nat) (d : Int) (hL : (L : Int) < 2147483648)
    (h40 : 36 + 4 ≤ L) (hd : 0 ≤ d)
    (hb : d ≤ toInt32 (toInt32 (toInt32 (L : Int) - 8) - 24 - 12)) : 44 ≤ L := by
  unfold toInt32 at hb
  omega

/-- Length and tail of the stream with a `LIST` chunk inserted at offset 36. -/
theorem with_list_shape (F junk : List cint8_t) (size n : Int) (h36 : 36 ≤ F.length) :
    (F.take 4 ++ (bytes_of_int32 size ++ ((F.drop 8).take 28
        ++ (bytes_of_int32 LE_LIST_CHUNK_ID
          ++ (bytes_of_int32 n ++ (junk ++ F.drop 36)))))).length
        = F.length + (8 + junk.length)
      ∧ List.drop (44 + junk.length + 8)
          (F.take 4 ++ (bytes_of_int32 size ++ ((F.drop 8).take 28
            ++ (bytes_of_int32 LE_LIST_CHUNK_ID ++ (bytes_of_int32 n ++ (junk ++ F.drop 36))))))
        = List.drop (36 + 8) F := by
  have l1 : (F.take 4).length = 4 := by rw [List.length_take]; omega
  have l2 : ((F.drop 8).take 28).length = 28 := by
    rw [List.length_take, List.length_drop]; omega
  constructor
  · simp only [List.length_append, List.length_take, List.length_drop, length_bytes_of_int32]
    omega
  · rw [show 44 + junk.length + 8 = 4 + (4 + (28 + (4 + (4 + (junk.length + 8))))) by omega,
      drop_append_right _ _ l1, drop_append_right _ _ (length_bytes_of_int32 _),
      drop_append_right _ _ l2, drop_append_right _ _ (length_bytes_of_int32 _),
      drop_append_right _ _ (length_bytes_of_int32 _), drop_append_right _ _ rfl,
      List.drop_drop]

theorem int32_at_of_cells {G : List cint8_t} {k : Nat} (v : Int)
    (h : ∀ i, i < 4 → cell G (k + i) = cell (bytes_of_int32 v) i) :
    int32_at G k = toInt32 v := by
  rw [← int32_at_bytes v []]
  exact int32_at_congr (fun i hi => by rw [h i hi, Nat.zero_add, List.append_nil])

/-- Fields of a stream `G` whose cells are those of `F` with a `LIST` chunk of `jl` bytes
inserted at offset 36 and the RIFF size field replaced by `size`. -/
theorem with_list_reads (F G : List cint8_t) (jl : Nat) (size n : Int) (g : Nat → Nat)
    (hcell : ∀ i, cell G i
      = if i < 4 then cell F i
        else if i < 8 then cell (bytes_of_int32 size) (i - 4)
        else if i < 36 then cell F i
        else if i < 40 then cell (bytes_of_int32 LE_LIST_CHUNK_ID) (i - 36)
        else if i < 44 then cell (bytes_of_int32 n) (i - 40)
        else if i < 44 + jl then g i
        else cell F (i - jl - 8)) :
    (int32_at G 0 = int32_at F 0 ∧ int32_at G 4 = toInt32 size
        ∧ int32_at G 8 = int32_at F 8 ∧ int32_at G 12 = int32_at F 12
        ∧ int32_at G 16 = int32_at F 16 ∧ int16_at G 20 = int16_at F 20
        ∧ int16_at G 22 = int16_at F 22 ∧ int32_at G 24 = int32_at F 24)
      ∧ (int32_at G 28 = int32_at F 28 ∧ int16_at G 32 = int16_at F 32
        ∧ int16_at G 34 = int16_at F 34 ∧ int32_at G 36 = LE_LIST_CHUNK_ID
        ∧ int32_at G 40 = toInt32 n)
      ∧ (int32_at G (44 + jl) = int32_at F 36
        ∧ int32_at G (44 + jl + 4) = int32_at F (36 + 4)) := by
  have same32 : ∀ k, (k + 4 ≤ 4 ∨ (8 ≤ k ∧ k + 4 ≤ 36)) → int32_at G k = int32_at F k := by
    intro k hk
    apply int32_at_congr
    intro i hi
    rw [hcell]
    rcases hk with hk | hk
    · rw [if_pos (by omega)]
    · rw [if_neg (by omega), if_neg (by omega), if_pos (by omega)]
  have same16 : ∀ k, (8 ≤ k ∧ k + 2 ≤ 36) → int16_at G k = int16_at F k := by
    intro k hk
    apply int16_at_congr
    intro i hi
    rw [hcell, if_neg (by omega), if_neg (by omega), if_pos (by omega)]
  have after : ∀ k, int32_at G (44 + jl + k) = int32_at F (36 + k) := by
    intro k
    apply int32_at_congr
    intro i hi
    rw [hcell, if_neg (by omega), if_neg (by omega), if_neg (by omega), if_neg (by omega),
      if_neg (by omega), if_neg (by omega)]
    congr 1
    omega
  refine ⟨⟨same32 0 (by omega), ?_, same32 8 (by omega), same32 12 (by omega),
    same32 16 (by omega), same16 20 (by omega), same16 22 (by omega), same32 24 (by omega)⟩,
    ⟨same32 28 (by omega), same16 32 (by omega), same16 34 (by omega), ?_, ?_⟩,
    ⟨after 0, after 4⟩⟩
  · apply int32_at_of_cells
    intro i hi
    rw [hcell, if_neg (by omega), if_pos (by omega)]
    congr 1
    omega
  · have h := int32_at_of_cells (G := G) (k := 36) LE_LIST_CHUNK_ID (fun i hi => by
      rw [hcell, if_neg (by omega), if_neg (by omega), if_neg (by omega), if_pos (by omega)]
      congr 1
      omega)
    rw [h]
    decide
  · apply int32_at_of_cells
    intro i hi
    rw [hcell, if_neg (by omega), if_neg (by omega), if_neg (by omega), if_neg (by omega),
      if_pos (by omega)]
    congr 1
    omega

/-- After a whole `LIST` chunk of `jl` bytes the stream stands at offset `44 + jl`. -/
theorem list_end_eq (G : List cint8_t) (n : Int) (jl : Nat) (h44 : 44 ≤ G.length)
    (hn : (jl : Int) = n) : list_end G n = 44 + jl := by
  unfold list_end
  rw [Nat.min_eq_left h44, if_pos (by omega)]
  omega

/-- C7: let `F` be decoded by `wave_open` into `w` with the `data` tag at offset 36, and
let `F'` be `F` with the chunk `LIST`, 32-bit size `n`, `n` arbitrary bytes inserted at
offset 36 and the RIFF size field increased by `n + 8`, the total length staying below
2^31. Then `wave_open` succeeds on `F'` and returns `w` with only the RIFF chunk size
increased by `n + 8`: the data subchunk (size and payload) and the format descriptor are
those returned for `F`. -/
theorem list_chunk_tolerance (F junk : List cint8_t) (n : Int) (w : wave_t)
    (hF : wave_open F = .ok w) (hdata : int32_at F 36 = LE_DATA_CHUNK_ID)
    (hn : (junk.length : Int) = n) (hfit : (F.length : Int) + 8 + n < 2147483648) :
    wave_open (F.take 4 ++ le_field32 (int32_at F 4 + (n + 8)) ++ (F.drop 8).take 28
        ++ tag_bytes "LIST" ++ le_field32 n ++ junk ++ F.drop 36)
      = .ok
          { riff_chunk := { w.riff_chunk with chunk_size := w.riff_chunk.chunk_size + (n + 8) }
            fmt_chunk := w.fmt_chunk
            data_chunk := w.data_chunk
            is_loaded := 1 } := by
  have hL : (F.length : Int) < 2147483648 := by omega
  -- what the decode of `F` tells
  rw [wave_open_eq_at] at hF
  obtain ⟨c1, c2, c3, c4, c5, c6, c7, hc⟩ := wave_open_at_ok hF
  have nl : ¬ int32_at F 36 = LE_LIST_CHUNK_ID := by rw [hdata]; decide
  unfold chunks_at at hc
  rw [if_neg nl, if_pos hdata] at hc
  obtain ⟨-, hb, hd0, hw⟩ := data_chunk_at_ok hc
  have h40 : 36 + 4 ≤ F.length := int32_at_in_bounds hdata (by decide)
  have h44 : 44 ≤ F.length := length_of_direct_data F.length _ hL h40 hd0 hb
  have h36 : 36 ≤ F.length := Nat.le_trans (by decide) h44
  obtain ⟨a0, a1, a2, a3, a4⟩ := list_arith F.length junk.length n (int32_at F 4) hn hfit c2
  -- the edited stream
  rw [← bytes_of_int32_eq_le, ← bytes_of_int32_eq_le, ← tag_constants.2.2.2.2]
  simp only [List.append_assoc]
  have hcell := cell_with_list F junk (int32_at F 4 + (n + 8)) n h36
  obtain ⟨hlenG, hdrop⟩ := with_list_shape F junk (int32_at F 4 + (n + 8)) n h36
  generalize F.take 4 ++ (bytes_of_int32 (int32_at F 4 + (n + 8)) ++ ((F.drop 8).take 28
        ++ (bytes_of_int32 LE_LIST_CHUNK_ID ++ (bytes_of_int32 n ++ (junk ++ F.drop 36)))))
      = G at hcell hlenG hdrop
  obtain ⟨⟨g0, g4, g8, g12, g16, g20, g22, g24⟩, ⟨g28, g32, g34, g36, g40⟩, gd, gs⟩ :=
    with_list_reads F G junk.length (int32_at F 4 + (n + 8)) n _ hcell
  rw [a1] at g4
  rw [a4] at g40
  have e2 : int32_at G 4 = toInt32 (toInt32 (G.length : Int) - 8) := by
    rw [g4, hlenG]; exact a2
  have e6 : int32_at G 28
      = wave_calculate_byte_rate (int32_at G 24) (int16_at G 22) (int16_at G 34) := by
    rw [g28, g24, g22, g34]; exact c6
  have e7 : int16_at G 32 = wave_calculate_block_align (int16_at G 22) (int16_at G 34) := by
    rw [g32, g22, g34]; exact c7
  have hend : list_end G (int32_at G 40) = 44 + junk.length := by
    rw [g40]
    exact list_end_eq G n junk.length
      (by rw [hlenG]; exact Nat.le_trans h44 (Nat.le_add_right _ _)) hn
  rw [wave_open_eq_at, wave_open_at_of_header (g0.trans c1) e2 (g8.trans c3) (g12.trans c4)
    (g20.trans c5) e6 e7]
  unfold chunks_at
  rw [if_pos g36, hend, g40, hlenG, a3,
    data_chunk_at_of _ _ (gd.trans hdata) (by rw [gs]; exact hb) (by rw [gs]; exact hd0),
    hdrop, gs, gd, hw]
  unfold riff_at fmt_at
  rw [g0, g4, g8, g12, g16, g20, g22, g24, g28, g32, g34]

theorem list_chunk_tolerance_witness :
    wave_open
        ((wave_save [0, 1, 2, 3] 4 1 44100 suint16).take 4
          ++ le_field32 (int32_at (wave_save [0, 1, 2, 3] 4 1 44100 suint16) 4 + (2 + 8))
          ++ ((wave_save [0, 1, 2, 3] 4 1 44100 suint16).drop 8).take 28
          ++ tag_bytes "LIST" ++ le_field32 2 ++ [9, 9]
          ++ (wave_save [0, 1, 2, 3] 4 1 44100 suint16).drop 36)
      = .ok
          { riff_chunk :=
              { chunk_id := LE_RIFF_CHUNK_ID, chunk_size := 40 + (2 + 8),
                format := LE_WAVE_CHUNK_ID }
            fmt_chunk :=
              { subchunk_id := LE_FMT_CHUNK_ID, subchunk_size := 16, audio_format := 1,
                num_channels := 1, sample_rate := 44100, byte_rate := 88200,
                block_align := 2, bits_per_sample := 16 }
            data_chunk :=
              { subchunk_id := LE_DATA_CHUNK_ID, subchunk_size := 4, data := [0, 1, 2, 3] }
            is_loaded := 1 } :=
  list_chunk_tolerance (wave_save [0, 1, 2, 3] 4 1 44100 suint16) [9, 9] 2
    { riff_chunk :=
        { chunk_id := LE_RIFF_CHUNK_ID, chunk_size := 40, format := LE_WAVE_CHUNK_ID }
      fmt_chunk :=
        { subchunk_id := LE_FMT_CHUNK_ID, subchunk_size := 16, audio_format := 1,
          num_channels := 1, sample_rate := 44100, byte_rate := 88200,
          block_align := 2, bits_per_sample := 16 }
      data_chunk :=
        { subchunk_id := LE_DATA_CHUNK_ID, subchunk_size := 4, data := [0, 1, 2, 3] }
      is_loaded := 1 }
    (by rfl) (by decide) (by decide) (by decide)

/-! ## Tag flips that are rejected -/

theorem cell_set_any (F : List cint8_t) (i j : Nat) (v : cint8_t) (h : i ≠ j) :
    cell (F.set i v) j = cell F j := by
  unfold cell
  simp only [List.getD_eq_getElem?_getD, List.getElem?_set, if_neg h]

theorem int32_at_set_same (F : List cint8_t) (i k : Nat) (v : cint8_t)
    (h : i < k ∨ k + 4 ≤ i) : int32_at (F.set i v) k = int32_at F k :=
  int32_at_congr (fun j _ => cell_set_any F i _ v (by omega))

theorem int16_at_set_same (F : List cint8_t) (i k : Nat) (v : cint8_t)
    (h : i < k ∨ k + 2 ≤ i) : int16_at (F.set i v) k = int16_at F k :=
  int16_at_congr (fun j _ => cell_set_any F i _ v (by omega))

/-- Four cells that differ in one place read as different fields. -/
theorem int32_ne_of_cells (a0 a1 a2 a3 b0 b1 b2 b3 : Nat)
    (ha0 : a0 < 256) (ha1 : a1 < 256) (ha2 : a2 < 256) (ha3 : a3 < 256)
    (hb0 : b0 < 256) (hb1 : b1 < 256) (hb2 : b2 < 256) (hb3 : b3 < 256)
    (h : a0 ≠ b0 ∨ a1 ≠ b1 ∨ a2 ≠ b2 ∨ a3 ≠ b3) :
    toInt32 ((a0 + 256 * a1 + 65536 * a2 + 16777216 * a3 : Nat) : Int)
      ≠ toInt32 ((b0 + 256 * b1 + 65536 * b2 + 16777216 * b3 : Nat) : Int) := by
  unfold toInt32
  omega

theorem int32_at_set_ne (F : List cint8_t) (i k : Nat) (v : cint8_t) (hi : i < F.length)
    (hk : k ≤ i ∧ i < k + 4) (hv : v.val ≠ cell F i) :
    int32_at (F.set i v) k ≠ int32_at F k := by
  unfold int32_at
  apply int32_ne_of_cells _ _ _ _ _ _ _ _ (cell_lt _ _) (cell_lt _ _) (cell_lt _ _)
    (cell_lt _ _) (cell_lt _ _) (cell_lt _ _) (cell_lt _ _) (cell_lt _ _)
  have hc : ∀ j, cell (F.set i v) j = if i = j then v.val else cell F j :=
    fun j => cell_set F i j v hi
  rw [hc k, hc (k + 1), hc (k + 2), hc (k + 3)]
  have h4 : i = k ∨ i = k + 1 ∨ i = k + 2 ∨ i = k + 3 := by omega
  rcases h4 with h | h | h | h
  · left; rw [if_pos h, ← h]; exact hv
  · right; left; rw [if_pos h, ← h]; exact hv
  · right; right; left; rw [if_pos h, ← h]; exact hv
  · right; right; right; rw [if_pos h, ← h]; exact hv

/-- One changed byte does not turn the tag `data` into the tag `LIST`. -/
theorem data_not_list_arith (a0 a1 a2 a3 b0 b1 b2 b3 : Nat)
    (ha0 : a0 < 256) (ha1 : a1 < 256) (ha2 : a2 < 256)
    (hb0 : b0 < 256) (hb1 : b1 < 256) (hb2 : b2 < 256)
    (hd : toInt32 ((a0 + 256 * a1 + 65536 * a2 + 16777216 * a3 : Nat) : Int) = 1635017060)
    (hl : toInt32 ((b0 + 256 * b1 + 65536 * b2 + 16777216 * b3 : Nat) : Int) = 1414744396)
    (h : (a0 = b0 ∧ a1 = b1) ∨ (a2 = b2 ∧ a3 = b3)) : False := by
  unfold toInt32 at hd hl
  omega

theorem data_set_not_list (F : List cint8_t) (i : Nat) (v : cint8_t) (hi : i < F.length)
    (hd : int32_at F 36 = LE_DATA_CHUNK_ID) :
    ¬ int32_at (F.set i v) 36 = LE_LIST_CHUNK_ID := by
  intro hl
  unfold int32_at at hd hl
  have hc : ∀ j, cell (F.set i v) j = if i = j then v.val else cell F j :=
    fun j => cell_set F i j v hi
  refine data_not_list_arith _ _ _ _ _ _ _ _ (cell_lt F 36) (cell_lt F (36 + 1))
    (cell_lt F (36 + 2)) (cell_lt (F.set i v) 36)
    (cell_lt (F.set i v) (36 + 1)) (cell_lt (F.set i v) (36 + 2)) hd hl ?_
  rw [hc 36, hc (36 + 1), hc (36 + 2), hc (36 + 3)]
  by_cases h : i = 36 ∨ i = 36 + 1
  · right
    rw [if_neg (by omega), if_neg (by omega)]
    exact ⟨rfl, rfl⟩
  · left
    rw [if_neg (by omega), if_neg (by omega)]
    exact ⟨rfl, rfl⟩

/-- Header checks are untouched by a change at or after offset 36. -/
theorem header_set_same (F : List cint8_t) (i : Nat) (v : cint8_t) (hi : 36 ≤ i)
    (c1 : int32_at F 0 = LE_RIFF_CHUNK_ID)
    (c2 : int32_at F 4 = toInt32 (toInt32 F.length - 8))
    (c3 : int32_at F 8 = LE_WAVE_CHUNK_ID)
    (c4 : int32_at F 12 = LE_FMT_CHUNK_ID)
    (c5 : int16_at F 20 = PCM_AUDIO_FORMAT)
    (c6 : int32_at F 28
      = wave_calculate_byte_rate (int32_at F 24) (int16_at F 22) (int16_at F 34))
    (c7 : int16_at F 32 = wave_calculate_block_align (int16_at F 22) (int16_at F 34)) :
    wave_open_at (F.set i v) = chunks_at (F.set i v) := by
  have hi0 : i < 0 ∨ 0 + 4 ≤ i := Or.inr (Nat.le_trans (by decide) hi)
  have hi4 : i < 4 ∨ 4 + 4 ≤ i := Or.inr (Nat.le_trans (by decide) hi)
  have hi8 : i < 8 ∨ 8 + 4 ≤ i := Or.inr (Nat.le_trans (by decide) hi)
  have hi12 : i < 12 ∨ 12 + 4 ≤ i := Or.inr (Nat.le_trans (by decide) hi)
  have hi20 : i < 20 ∨ 20 + 2 ≤ i := Or.inr (Nat.le_trans (by decide) hi)
  have hi22 : i < 22 ∨ 22 + 2 ≤ i := Or.inr (Nat.le_trans (by decide) hi)
  have hi24 : i < 24 ∨ 24 + 4 ≤ i := Or.inr (Nat.le_trans (by decide) hi)
  have hi28 : i < 28 ∨ 28 + 4 ≤ i := Or.inr (Nat.le_trans (by decide) hi)
  have hi32 : i < 32 ∨ 32 + 2 ≤ i := Or.inr (Nat.le_trans (by decide) hi)
  have hi34 : i < 34 ∨ 34 + 2 ≤ i := Or.inr (Nat.le_trans (by decide) hi)
  apply wave_open_at_of_header
  · rw [int32_at_set_same F i 0 v hi0]; exact c1
  · rw [int32_at_set_same F i 4 v hi4, List.length_set]; exact c2
  · rw [int32_at_set_same F i 8 v hi8]; exact c3
  · rw [int32_at_set_same F i 12 v hi12]; exact c4
  · rw [int16_at_set_same F i 20 v hi20]; exact c5
  · rw [int32_at_set_same F i 28 v hi28, int32_at_set_same F i 24 v hi24,
      int16_at_set_same F i 22 v hi22, int16_at_set_same F i 34 v hi34]
    exact c6
  · rw [int16_at_set_same F i 32 v hi32, int16_at_set_same F i 22 v hi22,
      int16_at_set_same F i 34 v hi34]
    exact c7

/-- The part of the tag-rejection property that the decoder does provide. Let `F` be
decoded by `wave_open` and let byte `i` of `F` be replaced by a different value `v`. If
`i` lies in `RIFF` (offsets 0..3), `WAVE` (8..11) or `fmt ` (12..15), `wave_open` stops with
the error of that tag. If `i` lies in a `data` tag at offset 36 and the four bytes after
that tag do not themselves read `data`, or if `i` lies in the `data` tag that follows a
`LIST` chunk of size `n ≥ 0`, `wave_open` stops with `DATA_SUBCHUNK_ID`. -/
theorem tag_flip_rejected (F : List cint8_t) (w : wave_t) (i : Nat) (v : cint8_t)
    (hF : wave_open F = .ok w) (hv : v.val ≠ cell F i) :
    (i < 4 → wave_open (F.set i v) = .error .RIFF_CHUNK_ID)
      ∧ (8 ≤ i ∧ i < 12 → wave_open (F.set i v) = .error .WAVE_CHUNK_ID)
      ∧ (12 ≤ i ∧ i < 16 → wave_open (F.set i v) = .error .FMT_SUBCHUNK_ID)
      ∧ (36 ≤ i ∧ i < 40 → int32_at F 36 = LE_DATA_CHUNK_ID →
          int32_at F 40 ≠ LE_DATA_CHUNK_ID →
          wave_open (F.set i v) = .error .DATA_SUBCHUNK_ID)
      ∧ (int32_at F 36 = LE_LIST_CHUNK_ID → 0 ≤ int32_at F 40 →
          44 + int32_at F 40 ≤ (i : Int) ∧ (i : Int) < 48 + int32_at F 40 →
          wave_open (F.set i v) = .error .DATA_SUBCHUNK_ID) := by
  rw [wave_open_eq_at] at hF
  obtain ⟨c1, c2, c3, c4, c5, c6, c7, hc⟩ := wave_open_at_ok hF
  have b1 : 0 + 4 ≤ F.length := int32_at_in_bounds c1 (by decide)
  have b3 : 8 + 4 ≤ F.length := int32_at_in_bounds c3 (by decide)
  have b4 : 12 + 4 ≤ F.length := int32_at_in_bounds c4 (by decide)
  refine ⟨?_, ?_, ?_, ?_, ?_⟩
  · intro hi
    have hne := int32_at_set_ne F i 0 v (Nat.lt_of_lt_of_le hi b1) ⟨Nat.zero_le i, hi⟩ hv
    rw [c1] at hne
    rw [wave_open_eq_at]
    unfold wave_open_at
    rw [if_pos hne]
  · intro hi
    have hne := int32_at_set_ne F i 8 v (Nat.lt_of_lt_of_le hi.2 b3) hi hv
    rw [c3] at hne
    have e1 : ¬ int32_at (F.set i v) 0 ≠ LE_RIFF_CHUNK_ID := by
      rw [int32_at_set_same F i 0 v (Or.inr (Nat.le_trans (by decide) hi.1))]
      exact not_not.mpr c1
    have e2 : ¬ int32_at (F.set i v) 4 ≠ toInt32 (toInt32 (F.set i v).length - 8) := by
      rw [int32_at_set_same F i 4 v (Or.inr hi.1), List.length_set]
      exact not_not.mpr c2
    rw [wave_open_eq_at]
    unfold wave_open_at
    rw [if_neg e1, if_neg e2, if_pos hne]
  · intro hi
    have hne := int32_at_set_ne F i 12 v (Nat.lt_of_lt_of_le hi.2 b4) hi hv
    rw [c4] at hne
    have e1 : ¬ int32_at (F.set i v) 0 ≠ LE_RIFF_CHUNK_ID := by
      rw [int32_at_set_same F i 0 v (Or.inr (Nat.le_trans (by decide) hi.1))]
      exact not_not.mpr c1
    have e2 : ¬ int32_at (F.set i v) 4 ≠ toInt32 (toInt32 (F.set i v).length - 8) := by
      rw [int32_at_set_same F i 4 v (Or.inr (Nat.le_trans (by decide) hi.1)), List.length_set]
      exact not_not.mpr c2
    have e3 : ¬ int32_at (F.set i v) 8 ≠ LE_WAVE_CHUNK_ID := by
      rw [int32_at_set_same F i 8 v (Or.inr hi.1)]
      exact not_not.mpr c3
    rw [wave_open_eq_at]
    unfold wave_open_at
    rw [if_neg e1, if_neg e2, if_neg e3, if_pos hne]
  · intro hi hd h40
    have bd : 36 + 4 ≤ F.length := int32_at_in_bounds hd (by decide)
    have hil : i < F.length := Nat.lt_of_lt_of_le hi.2 bd
    have hne := int32_at_set_ne F i 36 v hil hi hv
    rw [hd] at hne
    have hnl := data_set_not_list F i v hil hd
    have e40 : ¬ int32_at (F.set i v) 40 = LE_DATA_CHUNK_ID := by
      rw [int32_at_set_same F i 40 v (Or.inl hi.2)]
      exact h40
    rw [wave_open_eq_at, header_set_same F i v hi.1 c1 c2 c3 c4 c5 c6 c7]
    unfold chunks_at
    rw [if_neg hnl, if_neg hne]
    exact data_chunk_at_tag_error _ _ _ e40
  · intro hl hn hi
    unfold chunks_at at hc
    rw [if_pos hl] at hc
    obtain ⟨htag, -, -, -⟩ := data_chunk_at_ok hc
    have hin := int32_at_in_bounds htag (by decide)
    have he := list_end_of_in_bounds F.length (int32_at F 40) (list_end F (int32_at F 40)) hn
      rfl hin
    have hi44 : 44 ≤ i := Int.ofNat_le.mp (Int.le_trans (Int.le_add_of_nonneg_right hn) hi.1)
    have hk : list_end F (int32_at F 40) ≤ i ∧ i < list_end F (int32_at F 40) + 4 := by
      constructor
      · exact Int.ofNat_le.mp (by rw [he]; exact hi.1)
      · apply Int.ofNat_lt.mp
        rw [Int.ofNat_add, he]
        exact Int.lt_of_lt_of_le hi.2 (Int.le_of_eq (by ring))
    have hne := int32_at_set_ne F i _ v (Nat.lt_of_lt_of_le hk.2 hin) hk hv
    rw [htag] at hne
    have e36 : int32_at (F.set i v) 36 = LE_LIST_CHUNK_ID := by
      rw [int32_at_set_same F i 36 v (Or.inr (Nat.le_trans (by decide) hi44))]
      exact hl
    have e40 : int32_at (F.set i v) 40 = int32_at F 40 :=
      int32_at_set_same F i 40 v (Or.inr hi44)
    have eend : list_end (F.set i v) (int32_at F 40) = list_end F (int32_at F 40) := by
      unfold list_end
      rw [List.length_set]
    rw [wave_open_eq_at,
      header_set_same F i v (Nat.le_trans (by decide) hi44) c1 c2 c3 c4 c5 c6 c7]
    unfold chunks_at
    rw [if_pos e36, e40, eend]
    exact data_chunk_at_tag_error _ _ _ hne

/-! ## Derived fields (C8, C9, C10) -/

/-- C8 (as stated, refuted): at sample rate 2147483647, 2 channels and 8 bits per sample,
all inside the stated ranges, `wave_calculate_byte_rate` returns -2 while the integer
`sample_rate * num_channels * (bits_per_sample / 8)` is 4294967294. -/
theorem byte_rate_overflow_counterexample :
    ((1 : Int) ≤ 2147483647 ∧ (2147483647 : Int) ≤ 2 ^ 31 - 1 ∧ (1 : Int) ≤ 2 ∧ (2 : Int) ≤ 32767)
      ∧ wave_calculate_byte_rate 2147483647 2 8 = -2
      ∧ (2147483647 : Int) * 2 * (8 / 8) = 4294967294
      ∧ wave_calculate_byte_rate 2147483647 2 8 ≠ 2147483647 * 2 * (8 / 8) := by
  decide

/-- C8 (amended): for every sample rate in 1..2^31-1, channel count in 1..32767 and bits
per sample in {8, 16, 32} whose product `sample_rate * num_channels * (bits_per_sample / 8)`
does not exceed 2^31-1, `wave_calculate_byte_rate` returns exactly that product. -/
theorem byte_rate_exact (sample_rate num_channels bits_per_sample : Int)
    (hsr : 1 ≤ sample_rate ∧ sample_rate ≤ 2 ^ 31 - 1)
    (hnc : 1 ≤ num_channels ∧ num_channels ≤ 32767)
    (hbps : bits_per_sample = 8 ∨ bits_per_sample = 16 ∨ bits_per_sample = 32)
    (hfit : sample_rate * num_channels * (bits_per_sample / 8) ≤ 2 ^ 31 - 1) :
    wave_calculate_byte_rate sample_rate num_channels bits_per_sample
      = sample_rate * num_channels * (bits_per_sample / 8) := by
  have hpos : 0 ≤ sample_rate * num_channels := by
    apply Int.mul_nonneg <;> omega
  unfold wave_calculate_byte_rate toInt32
  rcases hbps with h | h | h <;> subst h
  · have e : Int.tdiv 8 8 = 1 := by decide
    have e2 : (8 : Int) / 8 = 1 := by decide
    rw [e]; rw [e2] at hfit ⊢
    omega
  · have e : Int.tdiv 16 8 = 2 := by decide
    have e2 : (16 : Int) / 8 = 2 := by decide
    rw [e]; rw [e2] at hfit ⊢
    omega
  · have e : Int.tdiv 32 8 = 4 := by decide
    have e2 : (32 : Int) / 8 = 4 := by decide
    rw [e]; rw [e2] at hfit ⊢
    omega

theorem byte_rate_exact_witness :
    wave_calculate_byte_rate 44100 2 16 = 44100 * 2 * (16 / 8) :=
  byte_rate_exact 44100 2 16 (by decide) (by decide) (by decide) (by decide)

/-- C9 (as stated, refuted): with 32767 channels and 32 bits per sample, both inside the
stated ranges, `wave_calculate_block_align` returns -4 while the integer
`num_channels * (bits_per_sample / 8)` is 131068. -/
theorem block_align_overflow_counterexample :
    ((1 : Int) ≤ 32767 ∧ (32767 : Int) ≤ 32767)
      ∧ wave_calculate_block_align 32767 32 = -4
      ∧ (32767 : Int) * (32 / 8) = 131068
      ∧ wave_calculate_block_align 32767 32 ≠ 32767 * (32 / 8) := by
  decide

/-- C9 (amended): for every channel count in 1..32767 and bits per sample in {8, 16, 32}
whose product `num_channels * (bits_per_sample / 8)` does not exceed 32767,
`wave_calculate_block_align` returns exactly that product. -/
theorem block_align_exact (num_channels bits_per_sample : Int)
    (hnc : 1 ≤ num_channels ∧ num_channels ≤ 32767)
    (hbps : bits_per_sample = 8 ∨ bits_per_sample = 16 ∨ bits_per_sample = 32)
    (hfit : num_channels * (bits_per_sample / 8) ≤ 32767) :
    wave_calculate_block_align num_channels bits_per_sample
      = num_channels * (bits_per_sample / 8) := by
  unfold wave_calculate_block_align toInt16 toInt32
  rcases hbps with h | h | h <;> subst h
  · have e : Int.tdiv 8 8 = 1 := by decide
    have e2 : (8 : Int) / 8 = 1 := by decide
    rw [e]; rw [e2] at hfit ⊢
    omega
  · have e : Int.tdiv 16 8 = 2 := by decide
    have e2 : (16 : Int) / 8 = 2 := by decide
    rw [e]; rw [e2] at hfit ⊢
    omega
  · have e : Int.tdiv 32 8 = 4 := by decide
    have e2 : (32 : Int) / 8 = 4 := by decide
    rw [e]; rw [e2] at hfit ⊢
    omega

theorem block_align_exact_witness :
    wave_calculate_block_align 2 16 = 2 * (16 / 8) :=
  block_align_exact 2 16 (by decide) (by decide) (by decide)

/-- C10: `wave_get_bits_per_sample` returns 8 for `suint8`, 16 for `suint16`, 32 for
`sfloat32` and 8 for every other enumeration value; the result is always one of 8, 16, 32,
hence always positive and a multiple of 8. -/
theorem bits_per_sample_mapping :
    wave_get_bits_per_sample suint8 = 8
      ∧ wave_get_bits_per_sample suint16 = 16
      ∧ wave_get_bits_per_sample sfloat32 = 32
      ∧ (∀ t : sample_type_t, t ≠ suint8 → t ≠ suint16 → t ≠ sfloat32 →
          wave_get_bits_per_sample t = 8)
      ∧ (∀ t : sample_type_t, wave_get_bits_per_sample t = 8
          ∨ wave_get_bits_per_sample t = 16 ∨ wave_get_bits_per_sample t = 32)
      ∧ (∀ t : sample_type_t, 0 < wave_get_bits_per_sample t
          ∧ wave_get_bits_per_sample t % 8 = 0) := by
  refine ⟨by decide, by decide, by decide, ?_, ?_, ?_⟩
  · intro t h1 h2 h3
    simp [wave_get_bits_per_sample, h1, h2, h3]
  · intro t
    unfold wave_get_bits_per_sample
    split_ifs <;> simp
  · intro t
    unfold wave_get_bits_per_sample
    split_ifs <;> decide

theorem bits_per_sample_mapping_witness : wave_get_bits_per_sample 7 = 8 :=
  bits_per_sample_mapping.2.2.2.1 7 (by decide) (by decide) (by decide)

/-! ## Release (C11) -/

theorem wave_free_loaded {m : wave_memory} (h : m.wave.is_loaded ≠ 0) :
    wave_free m
      = { wave := { m.wave with is_loaded := 0 }, free_calls := m.free_calls + 1 } := by
  unfold wave_free free
  rw [if_pos h]

theorem wave_free_released {m : wave_memory} (h : m.wave.is_loaded = 0) : wave_free m = m := by
  unfold wave_free
  rw [if_neg (not_not.mpr h)]

theorem wave_free_is_loaded (m : wave_memory) : (wave_free m).wave.is_loaded = 0 := by
  by_cases h : m.wave.is_loaded = 0
  · rw [wave_free_released h]; exact h
  · rw [wave_free_loaded h]

theorem wave_free_iterate (m : wave_memory) (k : Nat) :
    Nat.iterate wave_free (k + 1) m = wave_free m := by
  induction k with
  | zero => rfl
  | succ k ih =>
    rw [Function.iterate_succ_apply', ih]
    exact wave_free_released (wave_free_is_loaded m)

/-- C11: for every object, `wave_free` leaves `is_loaded = 0` and leaves the container
header, the format descriptor and the data subchunk (tag, size and the pointer member)
as they were; on an object whose `is_loaded` is already 0 it changes nothing, the count of
releases of the payload block included; applied twice it gives the state it gives applied
once; and however often it is applied, the payload block is released at most once more -
exactly once when the object was loaded, not at all when it was not. -/
theorem wave_free_idempotent_framed (m : wave_memory) :
    (wave_free m).wave.is_loaded = 0
      ∧ (wave_free m).wave.riff_chunk = m.wave.riff_chunk
      ∧ (wave_free m).wave.fmt_chunk = m.wave.fmt_chunk
      ∧ (wave_free m).wave.data_chunk.subchunk_id = m.wave.data_chunk.subchunk_id
      ∧ (wave_free m).wave.data_chunk.subchunk_size = m.wave.data_chunk.subchunk_size
      ∧ (wave_free m).wave.data_chunk.data = m.wave.data_chunk.data
      ∧ (m.wave.is_loaded = 0 → wave_free m = m)
      ∧ wave_free (wave_free m) = wave_free m
      ∧ (∀ k, (Nat.iterate wave_free k m).free_calls ≤ m.free_calls + 1)
      ∧ (∀ k, (Nat.iterate wave_free (k + 1) m).free_calls
          = if m.wave.is_loaded = 0 then m.free_calls else m.free_calls + 1) := by
  have hframe : (wave_free m).wave.riff_chunk = m.wave.riff_chunk
      ∧ (wave_free m).wave.fmt_chunk = m.wave.fmt_chunk
      ∧ (wave_free m).wave.data_chunk = m.wave.data_chunk
      ∧ (wave_free m).free_calls
          = if m.wave.is_loaded = 0 then m.free_calls else m.free_calls + 1 := by
    by_cases h : m.wave.is_loaded = 0
    · rw [wave_free_released h, if_pos h]
      exact ⟨rfl, rfl, rfl, rfl⟩
    · rw [wave_free_loaded h, if_neg h]
      exact ⟨rfl, rfl, rfl, rfl⟩
  obtain ⟨h1, h2, h3, h4⟩ := hframe
  refine ⟨wave_free_is_loaded m, h1, h2, by rw [h3], by rw [h3], by rw [h3],
    fun h => wave_free_released h, wave_free_released (wave_free_is_loaded m), ?_, ?_⟩
  · intro k
    cases k with
    | zero => exact Nat.le_succ _
    | succ k =>
      rw [wave_free_iterate, h4]
      split_ifs
      · exact Nat.le_succ _
      · exact Nat.le_refl _
  · intro k
    rw [wave_free_iterate, h4]

theorem wave_free_idempotent_framed_witness :
    wave_free
        { wave :=
            { riff_chunk :=
                { chunk_id := LE_RIFF_CHUNK_ID, chunk_size := 40, format := LE_WAVE_CHUNK_ID }
              fmt_chunk :=
                { subchunk_id := LE_FMT_CHUNK_ID, subchunk_size := 16, audio_format := 1,
                  num_channels := 1, sample_rate := 44100, byte_rate := 88200,
                  block_align := 2, bits_per_sample := 16 }
              data_chunk :=
                { subchunk_id := LE_DATA_CHUNK_ID, subchunk_size := 4, data := [0, 1, 2, 3] }
              is_loaded := 0 }
          free_calls := 1 }
      = { wave :=
            { riff_chunk :=
                { chunk_id := LE_RIFF_CHUNK_ID, chunk_size := 40, format := LE_WAVE_CHUNK_ID }
              fmt_chunk :=
                { subchunk_id := LE_FMT_CHUNK_ID, subchunk_size := 16, audio_format := 1,
                  num_channels := 1, sample_rate := 44100, byte_rate := 88200,
                  block_align := 2, bits_per_sample := 16 }
              data_chunk :=
                { subchunk_id := LE_DATA_CHUNK_ID, subchunk_size := 4, data := [0, 1, 2, 3] }
              is_loaded := 0 }
          free_calls := 1 } :=
  (wave_free_idempotent_framed _).2.2.2.2.2.2.1 rfl

/-! ## An unrecognised chunk tag (C12) -/

/-- C12 (the code accepts an unrecognised tag): take the 48 bytes `wave_save` writes for
the buffer `[0, 1, 2, 3]` (one channel, 44100 Hz, `suint16`), insert the four characters
`JUNK` at offset 36 and store 44, the new length minus 8, in the RIFF size field. The
stream passes the container-header and format-descriptor checks and its tag at offset 36
is neither `LIST` nor `data`, yet `wave_open` returns a loaded object: no `case` of the
`switch` matches `JUNK`, the stream is left after the tag, and the next four bytes, which
read `data`, are taken as the data tag. -/
theorem unrecognized_tag_accepted :
    int32_at ((wave_save [0, 1, 2, 3] 4 1 44100 suint16).take 4 ++ le_field32 44
        ++ ((wave_save [0, 1, 2, 3] 4 1 44100 suint16).drop 8).take 28 ++ tag_bytes "JUNK"
        ++ (wave_save [0, 1, 2, 3] 4 1 44100 suint16).drop 36) 36 ≠ LE_LIST_CHUNK_ID
      ∧ int32_at ((wave_save [0, 1, 2, 3] 4 1 44100 suint16).take 4 ++ le_field32 44
        ++ ((wave_save [0, 1, 2, 3] 4 1 44100 suint16).drop 8).take 28 ++ tag_bytes "JUNK"
        ++ (wave_save [0, 1, 2, 3] 4 1 44100 suint16).drop 36) 36 ≠ LE_DATA_CHUNK_ID
      ∧ wave_open ((wave_save [0, 1, 2, 3] 4 1 44100 suint16).take 4 ++ le_field32 44
        ++ ((wave_save [0, 1, 2, 3] 4 1 44100 suint16).drop 8).take 28 ++ tag_bytes "JUNK"
        ++ (wave_save [0, 1, 2, 3] 4 1 44100 suint16).drop 36)
        = .ok
            { riff_chunk :=
                { chunk_id := LE_RIFF_CHUNK_ID, chunk_size := 44, format := LE_WAVE_CHUNK_ID }
              fmt_chunk :=
                { subchunk_id := LE_FMT_CHUNK_ID, subchunk_size := 16, audio_format := 1,
                  num_channels := 1, sample_rate := 44100, byte_rate := 88200,
                  block_align := 2, bits_per_sample := 16 }
              data_chunk :=
                { subchunk_id := LE_DATA_CHUNK_ID, subchunk_size := 4, data := [0, 1, 2, 3] }
              is_loaded := 1 } := by
  refine ⟨by decide, by decide, by decide⟩

/-- What does hold for an unrecognised tag: a stream that passes the container-header and
format-descriptor checks and whose tag at offset 36 is neither `LIST` nor `data` is rejected
with `DATA_SUBCHUNK_ID` whenever the four bytes after that tag, at offset 40, do not read
`data`. -/
theorem unrecognized_tag_rejected (F : List cint8_t)
    (hpass : wave_open F ≠ .error .RIFF_CHUNK_ID ∧ wave_open F ≠ .error .RIFF_CHUNK_SIZE
      ∧ wave_open F ≠ .error .WAVE_CHUNK_ID ∧ wave_open F ≠ .error .FMT_SUBCHUNK_ID
      ∧ wave_open F ≠ .error .AUDIO_FORMAT ∧ wave_open F ≠ .error .BYTE_RATE
      ∧ wave_open F ≠ .error .BLOCK_ALIGN)
    (nl : int32_at F 36 ≠ LE_LIST_CHUNK_ID) (nd : int32_at F 36 ≠ LE_DATA_CHUNK_ID)
    (hnext : int32_at F 40 ≠ LE_DATA_CHUNK_ID) :
    wave_open F = .error .DATA_SUBCHUNK_ID := by
  rw [wave_open_eq_at] at hpass ⊢
  obtain ⟨h1, h2, h3, h4, h5, h6, h7⟩ := hpass
  rw [header_of_pass h1 h2 h3 h4 h5 h6 h7]
  unfold chunks_at
  rw [if_neg nl, if_neg nd]
  exact data_chunk_at_tag_error F _ _ hnext

/-! ## A second skippable chunk (C13) -/

/-- C13: let `F` pass the container-header and format-descriptor checks of `wave_open` (it
stops with none of their seven errors) and hold, at offset 36, a `LIST` chunk of size
`n ≥ 0` whose `n` payload bytes are present, followed at offset `44 + n` by the tag `LIST`
again. Then `wave_open` stops with `DATA_SUBCHUNK_ID`, whatever follows that second tag. -/
theorem second_list_rejected (F : List cint8_t) (n : Nat)
    (hpass : wave_open F ≠ .error .RIFF_CHUNK_ID ∧ wave_open F ≠ .error .RIFF_CHUNK_SIZE
      ∧ wave_open F ≠ .error .WAVE_CHUNK_ID ∧ wave_open F ≠ .error .FMT_SUBCHUNK_ID
      ∧ wave_open F ≠ .error .AUDIO_FORMAT ∧ wave_open F ≠ .error .BYTE_RATE
      ∧ wave_open F ≠ .error .BLOCK_ALIGN)
    (hl : int32_at F 36 = LE_LIST_CHUNK_ID) (hn : int32_at F 40 = (n : Int))
    (hpresent : 44 + n ≤ F.length)
    (hsecond : int32_at F (44 + n) = LE_LIST_CHUNK_ID) :
    wave_open F = .error .DATA_SUBCHUNK_ID := by
  rw [wave_open_eq_at] at hpass ⊢
  obtain ⟨h1, h2, h3, h4, h5, h6, h7⟩ := hpass
  rw [header_of_pass h1 h2 h3 h4 h5 h6 h7]
  unfold chunks_at
  have hend : list_end F (int32_at F 40) = 44 + n :=
    list_end_eq F _ n (Nat.le_trans (Nat.le_add_right 44 n) hpresent) hn.symm
  have nd : ¬ int32_at F (44 + n) = LE_DATA_CHUNK_ID := by
    rw [hsecond]; decide
  rw [if_pos hl, hend]
  exact data_chunk_at_tag_error F _ _ nd

theorem second_list_rejected_witness :
    wave_open ((wave_save [0, 1, 2, 3] 4 1 44100 suint16).take 4 ++ le_field32 58
        ++ ((wave_save [0, 1, 2, 3] 4 1 44100 suint16).drop 8).take 28
        ++ tag_bytes "LIST" ++ le_field32 2 ++ [9, 9]
        ++ tag_bytes "LIST" ++ le_field32 0
        ++ (wave_save [0, 1, 2, 3] 4 1 44100 suint16).drop 36)
      = .error .DATA_SUBCHUNK_ID :=
  second_list_rejected _ 2
    ⟨by decide, by decide, by decide, by decide, by decide, by decide, by decide⟩
    (by decide) (by decide) (by decide) (by decide)

/-! ## Bytes after the payload (C14) -/

/-- Cells of a stream whose bytes 16 to 19 were overwritten with the 32-bit value `v`. -/
theorem cell_fmt_size_set (F : List cint8_t) (v : Int) (hF : 20 ≤ F.length) (i : Nat) :
    cell (F.take 16 ++ (bytes_of_int32 v ++ F.drop 20)) i
      = if i < 16 then cell F i
        else if i < 20 then cell (bytes_of_int32 v) (i - 16)
        else cell F i := by
  have l1 : (F.take 16).length = 16 := by rw [List.length_take]; omega
  by_cases h1 : i < 16
  · rw [if_pos h1, cell_append_left _ (by omega), cell_take, if_pos h1]
  rw [if_neg h1, cell_append_right _ l1 (by omega)]
  by_cases h2 : i < 20
  · rw [if_pos h2, cell_append_left _ (by rw [length_bytes_of_int32]; omega)]
  rw [if_neg h2, cell_append_right _ (length_bytes_of_int32 _) (by omega), cell_drop]
  congr 1
  omega

/-- Fields of a stream `G` whose cells are those of `F` except at offsets 16 to 19, where
they are those of the 32-bit value `v`. -/
theorem fmt_size_set_reads (F G : List cint8_t) (v : Int)
    (hcell : ∀ i, cell G i
      = if i < 16 then cell F i
        else if i < 20 then cell (bytes_of_int32 v) (i - 16)
        else cell F i) :
    (int32_at G 0 = int32_at F 0 ∧ int32_at G 4 = int32_at F 4
        ∧ int32_at G 8 = int32_at F 8 ∧ int32_at G 12 = int32_at F 12
        ∧ int32_at G 16 = toInt32 v ∧ int16_at G 20 = int16_at F 20
        ∧ int16_at G 22 = int16_at F 22 ∧ int32_at G 24 = int32_at F 24)
      ∧ (int32_at G 28 = int32_at F 28 ∧ int16_at G 32 = int16_at F 32
        ∧ int16_at G 34 = int16_at F 34)
      ∧ (∀ k, 20 ≤ k → int32_at G k = int32_at F k) := by
  have low32 : ∀ k, k + 4 ≤ 16 → int32_at G k = int32_at F k := by
    intro k hk
    apply int32_at_congr
    intro i hi
    rw [hcell, if_pos (by omega)]
  have high32 : ∀ k, 20 ≤ k → int32_at G k = int32_at F k := by
    intro k hk
    apply int32_at_congr
    intro i hi
    rw [hcell, if_neg (by omega), if_neg (by omega)]
  have high16 : ∀ k, 20 ≤ k → int16_at G k = int16_at F k := by
    intro k hk
    apply int16_at_congr
    intro i hi
    rw [hcell, if_neg (by omega), if_neg (by omega)]
  refine ⟨⟨low32 0 (by omega), low32 4 (by omega), low32 8 (by omega), low32 12 (by omega),
    ?_, high16 20 (by omega), high16 22 (by omega), high32 24 (by omega)⟩,
    ⟨high32 28 (by omega), high16 32 (by omega), high16 34 (by omega)⟩, high32⟩
  apply int32_at_of_cells
  intro i hi
  rw [hcell, if_neg (by omega), if_pos (by omega)]
  congr 1
  omega

/-- After a `LIST` chunk that is wholly read and has a non-negative size field the data
subchunk is looked for at offset 40 or later. -/
theorem list_end_ge (F : List cint8_t) (n : Int) (hL : 36 + 4 ≤ F.length) (hn : 0 ≤ n) :
    40 ≤ list_end F n := by
  unfold list_end
  split_ifs <;> omega

/-- The object a successful decode returns holds the header and the format descriptor as
they stand in the file. -/
theorem chunks_at_headers {F : List cint8_t} {w : wave_t} (h : chunks_at F = .ok w) :
    w.riff_chunk = riff_at F ∧ w.fmt_chunk = fmt_at F ∧ w.is_loaded = 1 := by
  obtain ⟨ccs, p, hd⟩ := chunks_at_ok h
  obtain ⟨-, -, -, hw⟩ := data_chunk_at_ok hd
  rw [hw]
  exact ⟨rfl, rfl, rfl⟩

/-- The data subchunk read from a stream `G` that agrees with `F` from offset `p` on. -/
theorem data_chunk_at_edit {F G : List cint8_t} {r r2 : wave_riff_chunk_t}
    {f f2 : wave_fmt_chunk_t} {ccs : Int} {p : Nat} {w : wave_t}
    (h32 : ∀ k, p ≤ k → int32_at G k = int32_at F k)
    (hdrop : List.drop (p + 8) G = List.drop (p + 8) F)
    (h : data_chunk_at F r f ccs p = .ok w) :
    data_chunk_at G r2 f2 ccs p
      = .ok { riff_chunk := r2, fmt_chunk := f2, data_chunk := w.data_chunk, is_loaded := 1 } := by
  obtain ⟨c1, c2, c3, hw⟩ := data_chunk_at_ok h
  have e0 := h32 p (Nat.le_refl p)
  have e4 := h32 (p + 4) (Nat.le_add_right p 4)
  rw [data_chunk_at_of r2 f2 (e0.trans c1) (by rw [e4]; exact c2) (by rw [e4]; exact c3),
    e0, e4, hdrop, hw]

/-- The chunks after the format descriptor, read from a stream `G` that has the length of
`F` and agrees with it from offset 20 on. -/
theorem chunks_at_edit {F G : List cint8_t} {w : wave_t}
    (hlen : G.length = F.length)
    (h32 : ∀ k, 20 ≤ k → int32_at G k = int32_at F k)
    (hdrop : ∀ k, 20 ≤ k → List.drop k G = List.drop k F)
    (hlist : int32_at F 36 = LE_LIST_CHUNK_ID → 0 ≤ int32_at F 40)
    (h : chunks_at F = .ok w) :
    chunks_at G
      = .ok { riff_chunk := riff_at G, fmt_chunk := fmt_at G, data_chunk := w.data_chunk,
              is_loaded := 1 } := by
  have e36 := h32 36 (by decide)
  have e40 := h32 40 (by decide)
  have hend : list_end G (int32_at F 40) = list_end F (int32_at F 40) := by
    unfold list_end
    rw [hlen]
  unfold chunks_at at h ⊢
  rw [e36, e40, hlen, hend]
  by_cases c1 : int32_at F 36 = LE_LIST_CHUNK_ID
  · rw [if_pos c1] at h ⊢
    have hge := list_end_ge F (int32_at F 40) (int32_at_in_bounds c1 (by decide)) (hlist c1)
    exact data_chunk_at_edit
      (fun k hk => h32 k (Nat.le_trans (Nat.le_trans (by decide) hge) hk))
      (hdrop _ (Nat.le_trans (Nat.le_trans (by decide) hge) (Nat.le_add_right _ 8))) h
  rw [if_neg c1] at h ⊢
  by_cases c2 : int32_at F 36 = LE_DATA_CHUNK_ID
  · rw [if_pos c2] at h ⊢
    exact data_chunk_at_edit (fun k hk => h32 k (Nat.le_trans (by decide) hk))
      (hdrop _ (by decide)) h
  rw [if_neg c2] at h ⊢
  exact data_chunk_at_edit (fun k hk => h32 k (Nat.le_trans (by decide) hk))
    (hdrop _ (by decide)) h

theorem length_of_audio_format {F : List cint8_t} (h : int16_at F 20 = PCM_AUDIO_FORMAT) :
    20 ≤ F.length := by
  by_contra hc
  rw [int16_at_of_le (by omega)] at h
  exact absurd h (by decide)

theorem fmt_size_set_shape (F : List cint8_t) (v : Int) (hF : 20 ≤ F.length) :
    (F.take 16 ++ (bytes_of_int32 v ++ F.drop 20)).length = F.length
      ∧ ∀ k, 20 ≤ k →
          List.drop k (F.take 16 ++ (bytes_of_int32 v ++ F.drop 20)) = List.drop k F := by
  have l1 : (F.take 16).length = 16 := by rw [List.length_take]; omega
  constructor
  · simp only [List.length_append, List.length_take, List.length_drop, length_bytes_of_int32]
    omega
  · intro k hk
    obtain ⟨j, rfl⟩ : ∃ j, k = 16 + (4 + j) := ⟨k - 20, by omega⟩
    rw [drop_append_right _ _ l1, drop_append_right _ _ (length_bytes_of_int32 _),
      List.drop_drop]
    congr 1
    omega

/-- C15 (as stated, refuted): the 44-byte stream `RIFF`, 36, `WAVE`, `fmt `, a format
subchunk size field holding the four characters `data`, audio format 1, 0 channels,
44100 Hz, byte rate 0, block align 0, 16 bits, `LIST`, size -28. `wave_open` decodes it:
the `LIST` case seeks back by 28 bytes, from offset 44 to offset 16, and the data subchunk
is read there, from the format descriptor itself (tag at 16, size 1 at 20, payload byte at
24). With bytes 16 to 19 overwritten by the value 16, `wave_open` stops with
`DATA_SUBCHUNK_ID`. -/
theorem fmt_size_overwrite_counterexample :
    wave_open (tag_bytes "RIFF" ++ le_field32 36 ++ tag_bytes "WAVE" ++ tag_bytes "fmt "
        ++ tag_bytes "data" ++ le_field16 1 ++ le_field16 0 ++ le_field32 44100
        ++ le_field32 0 ++ le_field16 0 ++ le_field16 16 ++ tag_bytes "LIST"
        ++ le_field32 (-28))
        = .ok
            { riff_chunk :=
                { chunk_id := LE_RIFF_CHUNK_ID, chunk_size := 36, format := LE_WAVE_CHUNK_ID }
              fmt_chunk :=
                { subchunk_id := LE_FMT_CHUNK_ID, subchunk_size := LE_DATA_CHUNK_ID,
                  audio_format := 1, num_channels := 0, sample_rate := 44100,
                  byte_rate := 0, block_align := 0, bits_per_sample := 16 }
              data_chunk :=
                { subchunk_id := LE_DATA_CHUNK_ID, subchunk_size := 1, data := [0x44] }
              is_loaded := 1 }
      ∧ wave_open
          ((tag_bytes "RIFF" ++ le_field32 36 ++ tag_bytes "WAVE" ++ tag_bytes "fmt "
              ++ tag_bytes "data" ++ le_field16 1 ++ le_field16 0 ++ le_field32 44100
              ++ le_field32 0 ++ le_field16 0 ++ le_field16 16 ++ tag_bytes "LIST"
              ++ le_field32 (-28)).take 16
            ++ le_field32 16
            ++ (tag_bytes "RIFF" ++ le_field32 36 ++ tag_bytes "WAVE" ++ tag_bytes "fmt "
              ++ tag_bytes "data" ++ le_field16 1 ++ le_field16 0 ++ le_field32 44100
              ++ le_field32 0 ++ le_field16 0 ++ le_field16 16 ++ tag_bytes "LIST"
              ++ le_field32 (-28)).drop 20)
        = .error .DATA_SUBCHUNK_ID := by
  refine ⟨by decide, by decide⟩

/-- C15 (amended): let `wave_open` decode `F` into `w`, where a `LIST` chunk at offset 36,
if there is one, has a non-negative size field. For every 32-bit value `v`, the stream
obtained from `F` by overwriting bytes 16 to 19, the format descriptor's `subchunk_size`,
with `v` is decoded as well, into `w` with only the format `subchunk_size` changed, to
`v`: the payload, the data size and all other fields are those returned for `F`. -/
theorem fmt_size_not_checked (F : List cint8_t) (w : wave_t) (v : Int)
    (h : wave_open F = .ok w)
    (hlist : int32_at F 36 = LE_LIST_CHUNK_ID → 0 ≤ int32_at F 40)
    (hv : -2147483648 ≤ v ∧ v ≤ 2147483647) :
    wave_open (F.take 16 ++ le_field32 v ++ F.drop 20)
      = .ok { w with fmt_chunk := { w.fmt_chunk with subchunk_size := v } } := by
  rw [wave_open_eq_at] at h
  obtain ⟨c1, c2, c3, c4, c5, c6, c7, hc⟩ := wave_open_at_ok h
  obtain ⟨hr, hf, hl⟩ := chunks_at_headers hc
  have h20 : 20 ≤ F.length := length_of_audio_format c5
  have hvv : toInt32 v = v := toInt32_of_range hv.1 (Int.lt_of_le_sub_one (by omega))
  rw [← bytes_of_int32_eq_le, List.append_assoc]
  have hcell := cell_fmt_size_set F v h20
  obtain ⟨hlenG, hdrop⟩ := fmt_size_set_shape F v h20
  generalize F.take 16 ++ (bytes_of_int32 v ++ F.drop 20) = G at hcell hlenG hdrop
  obtain ⟨⟨g0, g4, g8, g12, g16, g20, g22, g24⟩, ⟨g28, g32, g34⟩, ghigh⟩ :=
    fmt_size_set_reads F G v hcell
  rw [hvv] at g16
  have e2 : int32_at G 4 = toInt32 (toInt32 (G.length : Int) - 8) := by
    rw [g4, hlenG]; exact c2
  have e6 : int32_at G 28
      = wave_calculate_byte_rate (int32_at G 24) (int16_at G 22) (int16_at G 34) := by
    rw [g28, g24, g22, g34]; exact c6
  have e7 : int16_at G 32 = wave_calculate_block_align (int16_at G 22) (int16_at G 34) := by
    rw [g32, g22, g34]; exact c7
  rw [wave_open_eq_at, wave_open_at_of_header (g0.trans c1) e2 (g8.trans c3) (g12.trans c4)
    (g20.trans c5) e6 e7, chunks_at_edit hlenG ghigh hdrop hlist hc, hf, hr, ← hl]
  unfold riff_at fmt_at
  rw [g0, g4, g8, g12, g16, g20, g22, g24, g28, g32, g34]

theorem fmt_size_not_checked_witness :
    wave_open ((wave_save [0, 1, 2, 3] 4 1 44100 suint16).take 16 ++ le_field32 18
        ++ (wave_save [0, 1, 2, 3] 4 1 44100 suint16).drop 20)
      = .ok
          { riff_chunk :=
              { chunk_id := LE_RIFF_CHUNK_ID, chunk_size := 40, format := LE_WAVE_CHUNK_ID }
            fmt_chunk :=
              { subchunk_id := LE_FMT_CHUNK_ID, subchunk_size := 18, audio_format := 1,
                num_channels := 1, sample_rate := 44100, byte_rate := 88200,
                block_align := 2, bits_per_sample := 16 }
            data_chunk :=
              { subchunk_id := LE_DATA_CHUNK_ID, subchunk_size := 4, data := [0, 1, 2, 3] }
            is_loaded := 1 } :=
  fmt_size_not_checked (wave_save [0, 1, 2, 3] 4 1 44100 suint16)
    { riff_chunk :=
        { chunk_id := LE_RIFF_CHUNK_ID, chunk_size := 40, format := LE_WAVE_CHUNK_ID }
      fmt_chunk :=
        { subchunk_id := LE_FMT_CHUNK_ID, subchunk_size := 16, audio_format := 1,
          num_channels := 1, sample_rate := 44100, byte_rate := 88200,
          block_align := 2, bits_per_sample := 16 }
      data_chunk :=
        { subchunk_id := LE_DATA_CHUNK_ID, subchunk_size := 4, data := [0, 1, 2, 3] }
      is_loaded := 1 }
    18 (by rfl) (by decide) (by decide)

/-! ## Channel count and sample rate of a decoded object (C16) -/

theorem int16_at_range (F : List cint8_t) (p : Nat) :
    -32768 ≤ int16_at F p ∧ int16_at F p ≤ 32767 := by
  unfold int16_at toInt16; omega

/-- C16 (as stated, refuted): `wave_open` decodes the stream `wave_save` writes for the
buffer `[0, 1, 2, 3]` with 0 channels and sample rate 0 (`suint16`) and returns 0 as channel
count and as sample rate; it decodes the one written with -2 channels and sample rate
-8000 and returns these negative values. -/
theorem nonpositive_format_counterexample :
    wave_open (wave_save [0, 1, 2, 3] 4 0 0 suint16)
        = .ok
            { riff_chunk :=
                { chunk_id := LE_RIFF_CHUNK_ID, chunk_size := 40, format := LE_WAVE_CHUNK_ID }
              fmt_chunk :=
                { subchunk_id := LE_FMT_CHUNK_ID, subchunk_size := 16, audio_format := 1,
                  num_channels := 0, sample_rate := 0, byte_rate := 0,
                  block_align := 0, bits_per_sample := 16 }
              data_chunk :=
                { subchunk_id := LE_DATA_CHUNK_ID, subchunk_size := 4, data := [0, 1, 2, 3] }
              is_loaded := 1 }
      ∧ wave_open (wave_save [0, 1, 2, 3] 4 (-2) (-8000) suint16)
        = .ok
            { riff_chunk :=
                { chunk_id := LE_RIFF_CHUNK_ID, chunk_size := 40, format := LE_WAVE_CHUNK_ID }
              fmt_chunk :=
                { subchunk_id := LE_FMT_CHUNK_ID, subchunk_size := 16, audio_format := 1,
                  num_channels := -2, sample_rate := -8000, byte_rate := 32000,
                  block_align := -4, bits_per_sample := 16 }
              data_chunk :=
                { subchunk_id := LE_DATA_CHUNK_ID, subchunk_size := 4, data := [0, 1, 2, 3] }
              is_loaded := 1 }
      ∧ ¬ (1 : Int) ≤ 0 ∧ ¬ (1 : Int) ≤ -2 ∧ ¬ (1 : Int) ≤ -8000 := by
  refine ⟨by decide, by decide, by decide, by decide, by decide⟩

/-- C16 (amended): whenever `wave_open` returns an object, its channel count is a 16-bit
integer (-32768..32767) and its sample rate a 32-bit integer (-2^31..2^31-1); neither is
checked for being positive. -/
theorem format_parameters_range (F : List cint8_t) (w : wave_t) (h : wave_open F = .ok w) :
    (-32768 ≤ w.fmt_chunk.num_channels ∧ w.fmt_chunk.num_channels ≤ 32767)
      ∧ (-2147483648 ≤ w.fmt_chunk.sample_rate ∧ w.fmt_chunk.sample_rate ≤ 2147483647) := by
  rw [wave_open_eq_at] at h
  obtain ⟨-, -, -, -, -, -, -, hc⟩ := wave_open_at_ok h
  obtain ⟨-, hf, -⟩ := chunks_at_headers hc
  rw [hf]
  have h1 := int16_at_range F 22
  have h2 := int32_at_range F 24
  exact ⟨h1, h2.1, Int.le_of_lt_add_one h2.2⟩

theorem format_parameters_range_witness :
    ((-32768 : Int) ≤ 0 ∧ (0 : Int) ≤ 32767) ∧ ((-2147483648 : Int) ≤ 0 ∧ (0 : Int) ≤ 2147483647) :=
  format_parameters_range (wave_save [0, 1, 2, 3] 4 0 0 suint16)
    { riff_chunk :=
        { chunk_id := LE_RIFF_CHUNK_ID, chunk_size := 40, format := LE_WAVE_CHUNK_ID }
      fmt_chunk :=
        { subchunk_id := LE_FMT_CHUNK_ID, subchunk_size := 16, audio_format := 1,
          num_channels := 0, sample_rate := 0, byte_rate := 0,
          block_align := 0, bits_per_sample := 16 }
      data_chunk :=
        { subchunk_id := LE_DATA_CHUNK_ID, subchunk_size := 4, data := [0, 1, 2, 3] }
      is_loaded := 1 }
    (by rfl)

/-- No value of these ranges is excluded: for every 16-bit channel count and every 32-bit
sample rate, zero and negative ones included, `wave_open` decodes the stream `wave_save`
writes for them (here with an empty buffer and `suint8`) and returns them. -/
theorem format_parameters_unchecked (num_channels sample_rate : Int)
    (hnc : -32768 ≤ num_channels ∧ num_channels ≤ 32767)
    (hsr : -2147483648 ≤ sample_rate ∧ sample_rate ≤ 2147483647) :
    ∃ w, wave_open (wave_save [] 0 num_channels sample_rate suint8) = .ok w
      ∧ w.fmt_chunk.num_channels = num_channels ∧ w.fmt_chunk.sample_rate = sample_rate := by
  obtain ⟨⟨f0, f4, f8, f12, f16, f20, f22, f24⟩, ⟨f28, f32, f34, f36, f40, f44⟩, c2, hb0⟩ :=
    wave_save_fields [] 0 num_channels sample_rate suint8 _ rfl rfl (by decide) hnc hsr
  generalize wave_save [] 0 num_channels sample_rate suint8 = F at *
  have c6 : int32_at F 28
      = wave_calculate_byte_rate (int32_at F 24) (int16_at F 22) (int16_at F 34) := by
    rw [f28, f24, f22, f34]
  have c7 : int16_at F 32 = wave_calculate_block_align (int16_at F 22) (int16_at F 34) := by
    rw [f32, f22, f34]
  have hb : int32_at F (36 + 4) ≤ toInt32 (toInt32 (toInt32 (F.length : Int) - 8) - 24 - 12) := by
    rw [f40]; exact hb0
  have hd0 : 0 ≤ int32_at F (36 + 4) := by
    rw [f40]
  refine ⟨_, wave_open_direct f0 c2 f8 f12 f20 c6 c7 f36 hb hd0, ?_, ?_⟩
  · exact f22
  · exact f24

/-! ## Payload bytes backed by the stream (C17) -/

/-- C17 (the code returns a payload the stream does not hold): the 48-byte stream made of
the first 36 bytes `wave_save` writes for the buffer `[0, 1, 2, 3]` (one channel, 44100 Hz,
`suint16`; the RIFF size field holds 40), the four characters `JUNK`, the tag `data` and
the size 4. No byte follows the size field, which ends at offset 48, the end of the stream.
`wave_open` returns a loaded object with data size 4 whose block received no byte: the tag
`JUNK` is matched by no `case` of the `switch`, its four bytes are not taken off the
running size, and the bound of the size check is 4 where 0 bytes are left. -/
theorem payload_not_backed :
    ((wave_save [0, 1, 2, 3] 4 1 44100 suint16).take 36 ++ tag_bytes "JUNK"
        ++ tag_bytes "data" ++ le_field32 4).length = 48
      ∧ wave_open ((wave_save [0, 1, 2, 3] 4 1 44100 suint16).take 36 ++ tag_bytes "JUNK"
          ++ tag_bytes "data" ++ le_field32 4)
        = .ok
            { riff_chunk :=
                { chunk_id := LE_RIFF_CHUNK_ID, chunk_size := 40, format := LE_WAVE_CHUNK_ID }
              fmt_chunk :=
                { subchunk_id := LE_FMT_CHUNK_ID, subchunk_size := 16, audio_format := 1,
                  num_channels := 1, sample_rate := 44100, byte_rate := 88200,
                  block_align := 2, bits_per_sample := 16 }
              data_chunk := { subchunk_id := LE_DATA_CHUNK_ID, subchunk_size := 4, data := [] }
              is_loaded := 1 } := by
  refine ⟨by decide, by decide⟩

theorem length_take_drop_nat (F : List cint8_t) (q : Nat) (d : Int) (hd0 : 0 ≤ d)
    (hd : d ≤ ((F.length - q : Nat) : Int)) : (((F.drop q).take d.toNat).length : Int) = d := by
  rw [List.length_take, List.length_drop]
  omega

theorem data_chunk_at_payload {F : List cint8_t} {r : wave_riff_chunk_t} {f : wave_fmt_chunk_t}
    {ccs : Int} {p : Nat} {w : wave_t} (h : data_chunk_at F r f ccs p = .ok w) :
    w.data_chunk.subchunk_size = int32_at F (p + 4)
      ∧ w.data_chunk.data = (F.drop (p + 8)).take (int32_at F (p + 4)).toNat := by
  obtain ⟨-, -, -, hw⟩ := data_chunk_at_ok h
  constructor
  · rw [hw]
  · rw [hw]

/-- What does hold: the data size `wave_open` returns is never negative; and when the data
subchunk stands directly after the format descriptor (at `p = 36`) or directly after one
`LIST` chunk of size `n ≥ 0` (at `p = 44 + n`), the returned size is the field at `p + 4`,
it is at most the number of bytes of the stream after that field, and the returned payload
is exactly that many bytes, those of the stream from offset `p + 8` on. -/
theorem payload_backed (F : List cint8_t) (w : wave_t) (h : wave_open F = .ok w) :
    0 ≤ w.data_chunk.subchunk_size
      ∧ ∀ p : Nat,
          ((int32_at F 36 = LE_DATA_CHUNK_ID ∧ p = 36)
            ∨ (int32_at F 36 = LE_LIST_CHUNK_ID ∧ 0 ≤ int32_at F 40
                ∧ (p : Int) = 44 + int32_at F 40)) →
          w.data_chunk.subchunk_size = int32_at F (p + 4)
            ∧ w.data_chunk.subchunk_size ≤ ((F.length - (p + 8) : Nat) : Int)
            ∧ w.data_chunk.data = (F.drop (p + 8)).take w.data_chunk.subchunk_size.toNat
            ∧ (w.data_chunk.data.length : Int) = w.data_chunk.subchunk_size := by
  rw [wave_open_eq_at] at h
  obtain ⟨-, -, -, -, -, -, -, hc⟩ := wave_open_at_ok h
  constructor
  · obtain ⟨ccs, p, hd⟩ := chunks_at_ok hc
    obtain ⟨-, -, d0, hw⟩ := data_chunk_at_ok hd
    rw [hw]
    exact d0
  intro p hplace
  unfold chunks_at at hc
  rcases hplace with ⟨hd, hp⟩ | ⟨hl, hn, hp⟩
  · have nl : ¬ int32_at F 36 = LE_LIST_CHUNK_ID := by rw [hd]; decide
    rw [if_neg nl, if_pos hd] at hc
    obtain ⟨-, c2, c3, -⟩ := data_chunk_at_ok hc
    obtain ⟨hsize, hdata⟩ := data_chunk_at_payload hc
    have hle : int32_at F (36 + 4) ≤ ((F.length - (36 + 8) : Nat) : Int) := by
      by_contra hcon
      exact absurd c2 (Int.not_le.mpr
        (direct_bound_arith F.length _ (int32_at_range F (36 + 4)).2 (Int.not_le.mp hcon)))
    rw [hp, hdata, hsize]
    exact ⟨rfl, hle, rfl, length_take_drop_nat F (36 + 8) (int32_at F (36 + 4)) c3 hle⟩
  · rw [if_pos hl] at hc
    obtain ⟨c1, c2, c3, -⟩ := data_chunk_at_ok hc
    obtain ⟨hsize, hdata⟩ := data_chunk_at_payload hc
    have hin := int32_at_in_bounds c1 (by decide)
    have he := list_end_of_in_bounds F.length (int32_at F 40) (list_end F (int32_at F 40)) hn
      rfl hin
    have hpe : list_end F (int32_at F 40) = p := Int.ofNat_inj.mp (he.trans hp.symm)
    rw [hpe] at c2 c3 hsize hdata hin
    have hle : int32_at F (p + 4) ≤ ((F.length - (p + 8) : Nat) : Int) := by
      by_contra hcon
      exact absurd c2 (Int.not_le.mpr
        (list_bound_arith F.length p (int32_at F 40) _ (int32_at_range F (p + 4)).2 hp hin
          (Int.not_le.mp hcon)))
    rw [hdata, hsize]
    exact ⟨rfl, hle, rfl, length_take_drop_nat F (p + 8) (int32_at F (p + 4)) c3 hle⟩

/-! ## Truncated input (C18) -/

/-- A 32-bit field whose last byte lies past the end of the file reads as a non-negative
value. -/
theorem int32_at_nonneg_of_short {F : List cint8_t} {p : Nat} (h : F.length ≤ p + 3) :
    0 ≤ int32_at F p := by
  have h3 : cell F (p + 3) = 0 := cell_of_le h
  have b0 := cell_lt F p
  have b1 := cell_lt F (p + 1)
  have b2 := cell_lt F (p + 2)
  unfold int32_at toInt32
  rw [h3]
  omega

/-- In a file shorter than 44 bytes the `LIST` case leaves the stream at or past the end of
the file. -/
theorem list_end_short (F : List cint8_t) (n : Int) (hL : F.length < 44) (hn : 0 ≤ n) :
    F.length ≤ list_end F n := by
  unfold list_end
  split_ifs <;> omega

/-- The bound of the size check for a data subchunk at offset 36 of a file shorter than 44
bytes is negative. -/
theorem short_bound_neg (L : Nat) (hL : L < 44) :
    toInt32 (toInt32 (toInt32 (L : Int) - 8) - 24 - 12) < 0 := by
  unfold toInt32; omega

theorem chunks_at_short (F : List cint8_t) (w : wave_t) (hL : F.length < 44) :
    chunks_at F ≠ .ok w := by
  intro hc
  unfold chunks_at at hc
  by_cases c1 : int32_at F 36 = LE_LIST_CHUNK_ID
  · rw [if_pos c1] at hc
    obtain ⟨d1, -, -, -⟩ := data_chunk_at_ok hc
    have hin := int32_at_in_bounds d1 (by decide)
    have hn : 0 ≤ int32_at F 40 := int32_at_nonneg_of_short (Nat.le_of_lt_succ hL)
    have hge := list_end_short F (int32_at F 40) hL hn
    exact absurd (Nat.le_trans hin hge) (Nat.not_le.mpr (Nat.lt_add_of_pos_right (by decide)))
  rw [if_neg c1] at hc
  by_cases c2 : int32_at F 36 = LE_DATA_CHUNK_ID
  · rw [if_pos c2] at hc
    obtain ⟨-, d2, d3, -⟩ := data_chunk_at_ok hc
    exact absurd (Int.le_trans d3 d2) (Int.not_le.mpr (short_bound_neg F.length hL))
  rw [if_neg c2] at hc
  obtain ⟨d1, -, -, -⟩ := data_chunk_at_ok hc
  have hin := int32_at_in_bounds d1 (by decide)
  exact absurd (Nat.lt_of_le_of_lt hin hL) (by decide)

/-- C18: on every stream shorter than 44 bytes (a read past the end of the stream leaving
the zero-initialised destination as it was) `wave_open` stops with one of its errors and
returns no object. -/
theorem truncated_input_rejected (F : List cint8_t) (hL : F.length < 44) :
    (∃ e, wave_open F = .error e) ∧ ∀ w, wave_open F ≠ .ok w := by
  have hno : ∀ w, wave_open F ≠ .ok w := by
    intro w h
    rw [wave_open_eq_at] at h
    obtain ⟨-, -, -, -, -, -, -, hc⟩ := wave_open_at_ok h
    exact chunks_at_short F w hL hc
  refine ⟨?_, hno⟩
  cases hr : wave_open F with
  | error e => exact ⟨e, rfl⟩
  | ok w => exact absurd hr (hno w)

theorem truncated_input_rejected_witness :
    ∃ e, wave_open ((wave_save [0, 1, 2, 3] 4 1 44100 suint16).take 43) = .error e :=
  (truncated_input_rejected ((wave_save [0, 1, 2, 3] 4 1 44100 suint16).take 43)
    (by decide)).1

/-! ## An allocator that may refuse (C1, C14) -/

/-- The request `wave_open` makes for a payload of `d ≥ 0` bytes: `sizeof(pointer) * d`. -/
theorem request_of_nonneg {d : Int} (h1 : 0 ≤ d) (h2 : d < 2147483648) :
    (8 * toSizeT d) % SIZE_RANGE = 8 * d.toNat
      ∧ 8 * d.toNat ≤ PTRDIFF_MAX := by
  rw [toSizeT_of_nonneg h1 h2]
  unfold SIZE_RANGE PTRDIFF_MAX
  omega

/-- With an allocator answering as `serves`, the data subchunk reader does what it does with
plentiful memory, except that it stops with `MALLOC` when the request for the payload
block, 8 bytes per declared payload byte, is not served. -/
theorem wave_open_data_chunk_with_eq (serves : Nat → Bool) (riff_chunk : wave_riff_chunk_t)
    (fmt_chunk : wave_fmt_chunk_t) (ccs : Int) (file : FILE) :
    wave_open_data_chunk_with serves riff_chunk fmt_chunk ccs file
      = (wave_open_data_chunk_with plentiful riff_chunk fmt_chunk ccs file).bind
          (fun w => if serves (8 * w.data_chunk.subchunk_size.toNat) = true then .ok w
            else .error .MALLOC) := by
  unfold wave_open_data_chunk_with
  simp only []
  by_cases c1 : int32_at (fread 4 file).1 0 ≠ LE_DATA_CHUNK_ID
  · rw [if_pos c1, if_pos c1]; rfl
  rw [if_neg c1, if_neg c1]
  have hr := int32_at_range (fread 4 (fread 4 file).2).1 0
  generalize int32_at (fread 4 (fread 4 file).2).1 0 = d at hr ⊢
  by_cases c2 : d > toInt32 (ccs - sizeof_wave_fmt_chunk_t - sizeof_wave_riff_chunk_t)
  · rw [if_pos c2, if_pos c2]; rfl
  rw [if_neg c2, if_neg c2]
  rw [show sizeof_pointer = 8 from rfl]
  by_cases c3 : 0 ≤ d
  · obtain ⟨e1, e2⟩ := request_of_nonneg c3 hr.2
    have hp : ¬ malloc plentiful ((8 * toSizeT d) % SIZE_RANGE) = false := by
      rw [(malloc_iff hr.1 hr.2).2 c3]; decide
    have hs : malloc serves ((8 * toSizeT d) % SIZE_RANGE) = serves (8 * d.toNat) := by
      unfold malloc
      rw [e1, decide_eq_true e2, Bool.true_and]
    rw [if_neg hp, hs]
    by_cases c4 : serves (8 * d.toNat) = true
    · rw [c4]
      simp only [Except.bind, c4]
      rfl
    · have c5 : serves (8 * d.toNat) = false := by simpa using c4
      rw [c5]
      simp only [Except.bind, c5]
      rfl
  · have hp : malloc plentiful ((8 * toSizeT d) % SIZE_RANGE) = false := by
      have h := (malloc_iff hr.1 hr.2).not.2 c3
      simpa using h
    have hs : malloc serves ((8 * toSizeT d) % SIZE_RANGE) = false := by
      unfold malloc plentiful at hp
      rw [Bool.and_true] at hp
      unfold malloc
      rw [hp, Bool.false_and]
    rw [if_pos hp, if_pos hs]
    rfl

theorem bind_ite {c : Prop} [Decidable c] (a b : Except wave_error wave_t)
    (g : wave_t → Except wave_error wave_t) :
    (if c then a else b).bind g = if c then a.bind g else b.bind g := by
  split_ifs <;> rfl

theorem error_bind (e : wave_error) (g : wave_t → Except wave_error wave_t) :
    (Except.error e : Except wave_error wave_t).bind g = .error e := by
  simp [Except.bind]

/-- With an allocator answering as `serves`, `wave_open` does what it does with plentiful
memory, except that it stops with `MALLOC` when the request for the payload block is not
served. -/
theorem wave_open_with_eq (serves : Nat → Bool) (F : List cint8_t) :
    wave_open_with serves F
      = (wave_open F).bind
          (fun w => if serves (8 * w.data_chunk.subchunk_size.toNat) = true then .ok w
            else .error .MALLOC) := by
  rw [wave_open_eq_at]
  have z : ({ content := F, pos := 0 } : FILE) = { content := F, pos := min 0 F.length } := by
    simp
  unfold wave_open_with
  simp only []
  have hg : (get_file_size { content := F, pos := 0 }).2 = { content := F, pos := 0 } := rfl
  have hg1 : (get_file_size { content := F, pos := 0 }).1 = toInt32 F.length := rfl
  rw [hg, hg1, z]
  simp only [fread_snd_min, int32_at_fread, int16_at_fread, Nat.reduceAdd, Nat.reduceLeDiff,
    Nat.le_refl]
  rw [show (NORMAL_CHUNK_OFFSET : Int) = 8 from rfl]
  have hl : fseek_cur { content := F, pos := min 44 F.length } (int32_at F 40)
      = { content := F, pos := list_end F (int32_at F 40) } := by
    unfold fseek_cur list_end
    split_ifs <;> rfl
  have hd : int32_at F 36 = LE_DATA_CHUNK_ID →
      fseek_set { content := F, pos := min 40 F.length }
        (toInt32 (ftell { content := F, pos := min 40 F.length }) - 4)
        = { content := F, pos := 36 } := by
    intro h
    have hb : 36 + 4 ≤ F.length := int32_at_in_bounds h (by unfold LE_DATA_CHUNK_ID; omega)
    have e : min 40 F.length = 40 := by omega
    have e2 : toInt32 (((40 : Nat) : Int)) - 4 = ((36 : Nat) : Int) := by
      unfold toInt32; omega
    rw [e]
    unfold fseek_set ftell
    rw [e2, if_pos (Int.ofNat_nonneg 36), Int.toNat_ofNat]
  rw [hl]
  simp only [wave_open_data_chunk_with_eq serves, wave_open_data_chunk_eq, data_chunk_at_min]
  unfold wave_open_at chunks_at riff_at fmt_at
  by_cases c : int32_at F 36 = LE_DATA_CHUNK_ID
  · rw [hd c, wave_open_data_chunk_eq]
    simp only [bind_ite, error_bind]
  · rw [if_neg c, if_neg c]
    simp only [bind_ite, error_bind]

/-- An object returned with any allocator is the object returned with plentiful memory: what
is proved of every object `wave_open` returns holds whatever the allocator answers. -/
theorem wave_open_of_with_ok {serves : Nat → Bool} {F : List cint8_t} {w : wave_t}
    (h : wave_open_with serves F = .ok w) : wave_open F = .ok w := by
  rw [wave_open_with_eq] at h
  cases hr : wave_open F with
  | error e =>
    rw [hr, error_bind] at h
    exact Except.noConfusion h
  | ok w2 =>
    rw [hr] at h
    simp only [Except.bind] at h
    by_cases hg : serves (8 * w2.data_chunk.subchunk_size.toNat) = true
    · rw [if_pos hg] at h
      exact h
    · rw [if_neg hg] at h
      exact Except.noConfusion h

end Wave
